import Mathlib

/-!
Verification development for the Residences-Import repository.

The repository ingests wastewater-surveillance data into a canonical data
model (`Odm`), type-casts columns against a remote variable registry
(`parse_types` in `wbe_odm/odm_mappers/base_mapper.py`), reshapes tables
(`__widen`, `__parse_sample`, ...), merges tables (`add_to_attr`), exports
geo features (`get_geoJSON`) and serializes the container through a tagged
JSON envelope (`OdmEncoder` / `decode_object`).

This file gives a shallow embedding of those operations.  Pure Python/pandas
functions become Lean functions on explicit data models:

* a pandas `Series` cell is a `RawCell` (string, number or missing) before
  casting and a typed column `TypedCol` afterwards;
* a pandas `DataFrame` is a `DataFrame`: a list of named, dtyped columns of
  `Cell`s sharing one positional (range) index;
* Python floats are idealized as rationals; pandas timestamps are modelled
  at the millisecond precision that the JSON codec represents;
* fallible pandas operations return `Except`/`Option`;
* the variable-type registry (fetched from a remote CSV at import time) is a
  parameter, as is the `set.pop` iteration order of Python string sets and
  the delegated WKT-to-GeoJSON conversion of the external `utilities` module.
-/

namespace ResImport

/-- Decidable equality of `Except` results, used to evaluate the model at
concrete inputs. -/
instance {ε α : Type} [DecidableEq ε] [DecidableEq α] : DecidableEq (Except ε α) :=
  fun a b =>
    match a, b with
    | .ok x, .ok y =>
      if h : x = y then .isTrue (by rw [h]) else .isFalse (fun hc => by cases hc; exact h rfl)
    | .error x, .error y =>
      if h : x = y then .isTrue (by rw [h]) else .isFalse (fun hc => by cases hc; exact h rfl)
    | .ok _, .error _ => .isFalse (fun hc => by cases hc)
    | .error _, .ok _ => .isFalse (fun hc => by cases hc)

/-! ## Basic character and string helpers (arm-length models of Python str) -/

/-- Lower-casing of one character, as `str.lower` does per ASCII character. -/
def lc (c : Char) : Char := c.toLower

/-- Python whitespace test used by `str.strip` (restricted to the usual
ASCII whitespace characters, which is all the repository's data uses). -/
def wsp (c : Char) : Bool := c = ' ' || c = '\t' || c = '\r' || c = '\n'

/-- `str.strip`: drop leading and trailing whitespace. -/
def pyStrip (cs : List Char) : List Char :=
  ((cs.dropWhile wsp).reverse.dropWhile wsp).reverse

/-- `str.strip` on a `String`. -/
def pyStripStr (s : String) : String := String.mk (pyStrip s.data)

/-- `str.lower` on a character list. -/
def lcl (cs : List Char) : List Char := cs.map lc

/-- `str.lower` on a `String`. -/
def lowerStr (s : String) : String := String.mk (lcl s.data)

/-- Does `pat` occur at the head of `cs` (case-sensitive)? -/
def startsL : List Char → List Char → Bool
  | [], _ => true
  | _ :: _, [] => false
  | p :: ps, c :: cs => p = c && startsL ps cs

/-- Does `pat` occur at the head of `cs`, comparing case-insensitively? -/
def startsLCI : List Char → List Char → Bool
  | [], _ => true
  | _ :: _, [] => false
  | p :: ps, c :: cs => lc p = lc c && startsLCI ps cs

/-- Python `pat in s` substring containment (case-sensitive). -/
def containsSub (pat : List Char) : List Char → Bool
  | [] => startsL pat []
  | c :: cs => startsL pat (c :: cs) || containsSub pat cs

/-- Python `s.endswith(pat)`. -/
def endsL (pat cs : List Char) : Bool := startsL pat.reverse cs.reverse

/-- Python `s.replace(old, new)` (plain, case-sensitive, all occurrences);
`old` is assumed nonempty, as at every call site in the source.  The first
argument is recursion fuel: one unit per subject character suffices, since
every step consumes at least one character; the fuel-exhaustion branch is
unreachable from `replaceAllCS`. -/
def replaceAllCSF (pat repl : List Char) : Nat → List Char → List Char
  | _, [] => []
  | 0, cs => cs
  | fuel + 1, c :: cs =>
    if startsL pat (c :: cs) && pat.length ≠ 0 then
      repl ++ replaceAllCSF pat repl fuel (List.drop (pat.length - 1) cs)
    else
      c :: replaceAllCSF pat repl fuel cs

def replaceAllCS (pat repl cs : List Char) : List Char :=
  replaceAllCSF pat repl cs.length cs

/-- pandas `Series.str.replace(pat, repl, case=False)` with a pattern that
contains no regex metacharacters: case-insensitive literal replacement of
all occurrences (fueled as `replaceAllCSF`). -/
def replaceAllCIF (pat repl : List Char) : Nat → List Char → List Char
  | _, [] => []
  | 0, cs => cs
  | fuel + 1, c :: cs =>
    if startsLCI pat (c :: cs) && pat.length ≠ 0 then
      repl ++ replaceAllCIF pat repl fuel (List.drop (pat.length - 1) cs)
    else
      c :: replaceAllCIF pat repl fuel cs

def replaceAllCI (pat repl cs : List Char) : List Char :=
  replaceAllCIF pat repl cs.length cs

/-- Python `s.split(sep)` for a one-character separator. -/
def splitOnSep (sep : Char) : List Char → List (List Char)
  | [] => [[]]
  | c :: cs =>
    match splitOnSep sep cs with
    | [] => [[]]
    | p :: ps => if c = sep then [] :: p :: ps else (c :: p) :: ps

/-- Keep-first-occurrence deduplication (the order in which fresh values are
met while scanning a list front to back). -/
def firstDedup {α : Type} [DecidableEq α] (l : List α) : List α :=
  l.foldl (fun acc a => if a ∈ acc then acc else acc ++ [a]) []

/-! ## The unknown-token regular expression

`UNKNOWN_REGEX = r"$^|n\.?[a|d|/|n]+\.?|^-$|unk.*|none"` from
`base_mapper.py`.  `parse_types` substitutes every match of this pattern
(via `Series.str.replace(..., regex=True)`, i.e. `re.sub` semantics) with a
replacement string.  The matcher below is specialized to this one pattern.
It compares case-insensitively (the text branch passes `case=False`; the
boolean branch lower-cases the data first, on which the case-sensitive and
case-insensitive matchers agree).  The newline-related corner cases of the
`$` and `^` anchors are not modelled: the strings this repository feeds
through the pattern are single-line. -/

/-- Membership of a character in the regex character class `[a|d|/|n]`
(which denotes the set a, |, d, /, n), case-insensitively. -/
def isCls (c : Char) : Bool :=
  lc c = 'a' || lc c = '|' || lc c = 'd' || lc c = '/' || lc c = 'n'

/-- Length of the leading run of class characters. -/
def clsRun : List Char → Nat
  | [] => 0
  | c :: cs => if isCls c then clsRun cs + 1 else 0

/-- Greedy match of the regex body `[a|d|/|n]+\.?` at the head of a list:
the number of characters consumed, or `none`. -/
def clsDotMatch (cs : List Char) : Option Nat :=
  let k := clsRun cs
  if k = 0 then none
  else
    match cs.drop k with
    | '.' :: _ => some (k + 1)
    | _ => some k

/-- Greedy match of the alternative `n\.?[a|d|/|n]+\.?` at the head of a
list (backtracking over the optional first dot as Python `re` does). -/
def alt1Match : List Char → Option Nat
  | [] => none
  | c :: cs =>
    if lc c = 'n' then
      match cs with
      | '.' :: cs2 =>
        match clsDotMatch cs2 with
        | some k => some (k + 2)
        | none => (clsDotMatch cs).map (· + 1)
      | _ => (clsDotMatch cs).map (· + 1)
    else none

/-- Match of one regex alternative at the current position.  `atStart` says
whether the position is offset 0 of the subject (for the `^` anchors).
Returns the number of characters the leftmost-preferred alternative
consumes.  Alternatives are tried in the pattern's order:
`$^`, `n\.?[a|d|/|n]+\.?`, `^-$`, `unk.*`, `none`. -/
def reMatchAt (atStart : Bool) (cs : List Char) : Option Nat :=
  match cs with
  | [] => if atStart then some 0 else none
  | c :: rest =>
    match alt1Match (c :: rest) with
    | some k => some k
    | none =>
      if atStart && lc c = '-' && rest = [] then some 1
      else if startsLCI ['u', 'n', 'k'] (c :: rest) then
        some (3 + (((c :: rest).drop 3).takeWhile (fun d => d ≠ '\n')).length)
      else if startsLCI ['n', 'o', 'n', 'e'] (c :: rest) then some 4
      else none

/-- `re.sub(UNKNOWN_REGEX, repl, s)`: scan the subject, replacing every
match with `repl`.  The `Nat` argument is recursion fuel (one unit per
subject character suffices: every interior match consumes at least one
character); the fuel-exhaustion branch is unreachable from `reSub`. -/
def reSubGo (repl : List Char) : Nat → Bool → List Char → List Char
  | _, atStart, [] => if atStart then repl else []
  | 0, _, cs => cs
  | fuel + 1, atStart, c :: rest =>
    match reMatchAt atStart (c :: rest) with
    | some k => repl ++ reSubGo repl fuel false (List.drop (k - 1) rest)
    | none => c :: reSubGo repl fuel false rest

/-- Substitute every match of the unknown-token pattern in `cs` by `repl`. -/
def reSub (repl cs : List Char) : List Char := reSubGo repl cs.length true cs

/-- Decidable test: does the subject as a whole match the unknown-token
pattern (`re.fullmatch` semantics)?  This follows the same five
alternatives as `reMatchAt`.  `alt1FullB` is the full-string version of the
second alternative. -/
def clsThenOptDotEnd : List Char → Bool
  | [] => false
  | [c] => isCls c
  | c :: rest => isCls c && (clsThenOptDotEnd rest || rest = ['.'])

/-- Full-string match of `n\.?[a|d|/|n]+\.?`. -/
def alt1FullB : List Char → Bool
  | [] => false
  | c :: rest =>
    lc c = 'n' &&
      (clsThenOptDotEnd rest ||
        match rest with
        | '.' :: rest2 => clsThenOptDotEnd rest2
        | _ => false)

/-- Full-string match of the unknown-token regex. -/
def unknownFullMatch (cs : List Char) : Bool :=
  cs.isEmpty ||
  (match cs with | [c] => lc c = '-' | _ => false) ||
  alt1FullB cs ||
  (startsLCI ['u', 'n', 'k'] cs && cs.all (fun d => d ≠ '\n')) ||
  (match cs with
   | [a, b, c, d] => lc a = 'n' && lc b = 'o' && lc c = 'n' && lc d = 'e'
   | _ => false)

/-- The literal token list (base_mapper.py, lines 5-16).  The source omits
the comma after `"nd"`, so Python's adjacent-literal concatenation makes the
third element `"ndn.d"`; the constant is never read by `parse_types`, which
uses only `UNKNOWN_REGEX`. -/
def UNKNOWN_TOKENS : List String :=
  ["nan", "na", "nd" ++ "n.d", "none", "-", "unknown", "n/a", "n/d", ""]

/-! ## `parse_types` (base_mapper.py, lines 40-66)

```
def parse_types(table_name, series):
    variable_name = series.name.lower()
    types = DATA_TYPES
    lookup_table = types[table_name]
    lookup_type = lookup_table.get(variable_name, dict())
    desired_type = lookup_type.get("variableType", "string")
    if desired_type == "bool":
        series = series.astype(str)
        default_bool = "false" if "qualityFlag" in variable_name else "true"
        series = series.str.strip().str.lower()
        series = series.str.replace(
            UNKNOWN_REGEX, default_bool, regex=True)\
            .str.replace("oui", "true", case=False)\
            .str.replace("yes", "true", case=False)\
            .str.startswith("true")
    elif desired_type == "string" or desired_type == "category":
        series = series.astype(str)
        series = series.str.strip()
        series = series.str.replace(
            UNKNOWN_REGEX, "", regex=True, case=False)
        if variable_name != "wkt":
            series = series.str.lower()
    elif desired_type in ["inst64", "float64"]:
        series = pd.to_numeric(series, errors="coerce")

    series = series.astype(desired_type)
    return series
```

The registry `DATA_TYPES` (built at import time from a remote CSV, mapping
table name to a map from lower-cased variable name to a dtype token among
"datetime64[ns]", "bool", "float64", "int64", "object") is a parameter of
the model.  Note two properties of the source that the theorems below
exercise: `variable_name` is lower-cased before the case-sensitive
substring test `"qualityFlag" in variable_name`, and the numeric branch
tests membership in `["inst64", "float64"]` where no registry token is ever
`"inst64"`, so an `"int64"` column falls through to the bare
`astype("int64")`. -/

/-- One cell of a raw (not yet cast) pandas `Series`: a string, a number
(Python floats idealized as rationals), or a missing value. -/
inductive RawCell where
  | rstr (s : String)
  | rnum (q : ℚ)
  | rnull
  deriving DecidableEq, Repr

/-- A column after type casting. `floats` uses `none` for the NaN
missing-numeric sentinel. -/
inductive TypedCol where
  | bools (bs : List Bool)
  | strs (ss : List String)
  | floats (vs : List (Option ℚ))
  | ints (ns : List Int)
  deriving DecidableEq, Repr

/-- `astype(str)` on one cell.  The repository feeds strings through the
boolean and text branches; numbers and missing values are rendered the way
Python renders them in the cases the theorems use (integral floats and NaN),
which is all the fidelity the claims need. -/
def pyStr : RawCell → String
  | .rstr s => s
  | .rnum q => if q.den = 1 then toString q.num ++ ".0" else toString q.num
  | .rnull => "nan"

/-- The boolean branch of `parse_types`, applied to one stringified cell.
`variable_name` is already lower-cased by the caller.  The regex
substitution in the source is case-sensitive here, but it acts on data that
was just lower-cased, on which the case-insensitive matcher used below
behaves identically. -/
def bool_cast_cell (variable_name : String) (s : String) : Bool :=
  let default_bool := if containsSub "qualityFlag".data variable_name.data
    then "false" else "true"
  let t := lcl (pyStrip s.data)
  let r := reSub default_bool.data t
  let r2 := replaceAllCI "oui".data "true".data r
  let r3 := replaceAllCI "yes".data "true".data r2
  startsL "true".data r3

/-- The text branch of `parse_types`, applied to one stringified cell:
strip, substitute unknown tokens by the empty string, lower-case unless the
column is named `wkt`. -/
def text_cast_cell (variable_name : String) (s : String) : String :=
  let t := pyStrip s.data
  let r := reSub [] t
  if variable_name ≠ "wkt" then String.mk (lcl r) else String.mk r

/-- `pd.to_numeric(cell, errors="coerce")` composed with the final
`astype("float64")`: parse, or produce the NaN sentinel. -/
def toNumericCoerce (pyFloat : String → Option ℚ) : RawCell → Option ℚ
  | .rstr s => pyFloat s
  | .rnum q => some q
  | .rnull => none

/-- Conservative model of Python `float(str)`: optional surrounding
whitespace, optional sign, decimal digits with an optional single fractional
point (at least one digit overall).  Exponent forms are not modelled; no
claim depends on them. -/
def isDig (c : Char) : Bool := 48 ≤ c.toNat && c.toNat ≤ 57

/-- Numeric value of a digit list, most significant first. -/
def digitsVal (cs : List Char) : Nat :=
  cs.foldl (fun a c => a * 10 + (c.toNat - 48)) 0

def pyFloat? (s : String) : Option ℚ :=
  let cs := pyStrip s.data
  let (sign, cs) : ℤ × List Char :=
    match cs with
    | '+' :: r => (1, r)
    | '-' :: r => (-1, r)
    | r => (1, r)
  let ip := cs.takeWhile isDig
  let rest := cs.dropWhile isDig
  match rest with
  | [] => if ip.isEmpty then none else some ((sign : ℚ) * (digitsVal ip : ℚ))
  | '.' :: frac =>
    if frac.all isDig && !(ip.isEmpty && frac.isEmpty) then
      some ((sign : ℚ) *
        ((digitsVal ip : ℚ) + (digitsVal frac : ℚ) / ((10 : ℚ) ^ frac.length)))
    else none
  | _ => none

/-- Model of Python `int(str)` as used by `numpy.astype("int64")` on a
string cell: optional whitespace and sign, then decimal digits only. -/
def pyInt? (s : String) : Option ℤ :=
  let cs := pyStrip s.data
  let (sign, cs) : ℤ × List Char :=
    match cs with
    | '+' :: r => (1, r)
    | '-' :: r => (-1, r)
    | r => (1, r)
  if cs.isEmpty || !cs.all isDig then none
  else some (sign * (digitsVal cs : ℤ))

/-- `astype("int64")` on one raw cell: strings must be integer literals,
floats are truncated, missing values cannot be represented and raise. -/
def astypeInt : RawCell → Except String ℤ
  | .rstr s =>
    match pyInt? s with
    | some n => Except.ok n
    | none => Except.error "ValueError: invalid literal for int"
  | .rnum q => Except.ok (q.num.tdiv (q.den : ℤ))
  | .rnull => Except.error "ValueError: cannot convert float NaN to integer"

/-- The variable-type registry: canonical table name to (lower-cased
variable name to dtype token).  `types[table_name]` raises `KeyError` on an
unknown table, hence the outer `Option`. -/
def Registry := String → Option (String → Option String)

/-- `parse_types(table_name, series)` on a series with name `colName` and
values `vals`.  The `datetime64[ns]` final cast and other dtype tokens are
outside this model (no claim touches them); they map to an error value. -/
def parse_types (types : Registry) (table_name colName : String)
    (vals : List RawCell) : Except String TypedCol :=
  let variable_name := lowerStr colName
  match types table_name with
  | none => Except.error "KeyError"
  | some lookup_table =>
    let desired_type := (lookup_table variable_name).getD "string"
    if desired_type = "bool" then
      Except.ok (.bools (vals.map (fun v => bool_cast_cell variable_name (pyStr v))))
    else if desired_type = "string" || desired_type = "category" then
      Except.ok (.strs (vals.map (fun v => text_cast_cell variable_name (pyStr v))))
    else if desired_type = "inst64" || desired_type = "float64" then
      Except.ok (.floats (vals.map (toNumericCoerce pyFloat?)))
    else if desired_type = "int64" then
      (vals.mapM astypeInt).map .ints
    else Except.error "dtype outside the model"

/-! ## The tabular data model

A pandas `DataFrame` as the repository uses it: named columns of equal
length over the default positional index `0, 1, ...`.  Cell values are
strings, numbers (rationals), booleans, timestamps or missing. Timestamps
carry calendar fields at the millisecond precision that the JSON codec
represents (`to_json(date_format="iso")` writes milliseconds). -/

/-- A timestamp at millisecond precision. -/
structure Ts where
  year : Nat
  month : Nat
  day : Nat
  hour : Nat
  minute : Nat
  second : Nat
  ms : Nat
  deriving DecidableEq, Repr

/-- One cell of a table. -/
inductive Cell where
  | cstr (s : String)
  | cnum (q : ℚ)
  | cbool (b : Bool)
  | cts (t : Ts)
  | cnull
  deriving DecidableEq, Repr

/-- Column dtypes this development distinguishes. -/
inductive Dtype where
  | object
  | float64
  | int64
  | boolDt
  | datetime64
  deriving DecidableEq, Repr

/-- A named, dtyped column. -/
structure Col where
  name : String
  dtype : Dtype
  vals : List Cell
  deriving DecidableEq, Repr

/-- A table: columns over a shared positional index. -/
structure DataFrame where
  cols : List Col
  deriving DecidableEq, Repr

namespace DataFrame

/-- The column names, in order. -/
def names (df : DataFrame) : List String := df.cols.map Col.name

/-- Number of rows (all columns of a well-formed table have this length). -/
def nrows (df : DataFrame) : Nat := ((df.cols.head?).map (fun c => c.vals.length)).getD 0

/-- All columns share the length `df.nrows`. -/
def Rect (df : DataFrame) : Prop := ∀ c ∈ df.cols, c.vals.length = df.nrows

instance (df : DataFrame) : Decidable df.Rect := by
  unfold Rect; infer_instance

/-- `df[name]`, the first column of that name. -/
def col? (df : DataFrame) (name : String) : Option Col :=
  df.cols.find? (fun c => c.name = name)

/-- `df.loc[i, name]` read access (missing column or row reads as an
error / missing value at the call sites modelled here). -/
def cell? (df : DataFrame) (name : String) (i : Nat) : Option Cell :=
  (df.col? name).map (fun c => c.vals.getD i .cnull)

/-- `df.loc[i, name] = v`: set one cell (no-op when the column is absent
or the row out of range, situations the modelled call sites never reach). -/
def setCell (df : DataFrame) (name : String) (i : Nat) (v : Cell) : DataFrame :=
  ⟨df.cols.map (fun c => if c.name = name then { c with vals := c.vals.set i v } else c)⟩

/-- `df.append(row, ignore_index=True)` where the appended row is a copy of
row `i` with the `siteID` field replaced (the only append the source
performs, in `__parse_sample`). -/
def appendRowFrom (df : DataFrame) (i : Nat) (siteName : String) (site : Cell) :
    DataFrame :=
  ⟨df.cols.map (fun c =>
    { c with vals := c.vals ++ [if c.name = siteName then site else c.vals.getD i .cnull] })⟩

/-- `df.drop(columns=l)`: every named column must exist (`KeyError`
otherwise), and all of them are removed. -/
def dropCols (df : DataFrame) (l : List String) : Except String DataFrame :=
  if l.all (fun n => n ∈ df.names) then
    Except.ok ⟨df.cols.filter (fun c => c.name ∉ l)⟩
  else Except.error "KeyError: drop on a missing column"

/-- `df.add_prefix(p)`. -/
def addPrefixTo (df : DataFrame) (p : String) : DataFrame :=
  ⟨df.cols.map (fun c => { c with name := p ++ c.name })⟩

end DataFrame

/-! ## ISO-8601 codec for timestamps

`DataFrame.to_json(date_format="iso")` writes a datetime64 cell as
`YYYY-MM-DDTHH:MM:SS.mmmZ` (millisecond precision, the default
`date_unit="ms"`), and `pd.read_json` parses that form back. -/

/-- The character of a decimal digit (`n` is taken mod 10). -/
def dig (n : Nat) : Char := Char.ofNat (48 + n % 10)

/-- Two-digit zero-padded decimal. -/
def pad2 (n : Nat) : List Char := [dig (n / 10), dig n]

/-- Three-digit zero-padded decimal. -/
def pad3 (n : Nat) : List Char := [dig (n / 100), dig (n / 10), dig n]

/-- Four-digit zero-padded decimal. -/
def pad4 (n : Nat) : List Char := [dig (n / 1000), dig (n / 100), dig (n / 10), dig n]

/-- ISO-8601 rendering of a timestamp at millisecond precision. -/
def isoFormat (t : Ts) : String :=
  String.mk (pad4 t.year ++ '-' :: pad2 t.month ++ '-' :: pad2 t.day ++
    'T' :: pad2 t.hour ++ ':' :: pad2 t.minute ++ ':' :: pad2 t.second ++
    '.' :: pad3 t.ms ++ ['Z'])

/-- Value of a digit character. -/
def dv (c : Char) : Nat := c.toNat - 48

/-- Parse the fixed-width ISO-8601 form written by `isoFormat`
(`pd.to_datetime` accepts more shapes; the repository only ever feeds it
this one through the codec). -/
def parseIso (s : String) : Option Ts :=
  match s.data with
  | [y1, y2, y3, y4, '-', m1, m2, '-', d1, d2, 'T', h1, h2, ':', mi1, mi2, ':',
     s1, s2, '.', x1, x2, x3, 'Z'] =>
    if isDig y1 && isDig y2 && isDig y3 && isDig y4 && isDig m1 && isDig m2 &&
       isDig d1 && isDig d2 && isDig h1 && isDig h2 && isDig mi1 && isDig mi2 &&
       isDig s1 && isDig s2 && isDig x1 && isDig x2 && isDig x3 then
      some ⟨((dv y1 * 10 + dv y2) * 10 + dv y3) * 10 + dv y4,
            dv m1 * 10 + dv m2, dv d1 * 10 + dv d2, dv h1 * 10 + dv h2,
            dv mi1 * 10 + dv mi2, dv s1 * 10 + dv s2,
            (dv x1 * 10 + dv x2) * 10 + dv x3⟩
    else none
  | _ => none

/-- The field bounds under which a timestamp is representable in the
fixed-width ISO form. -/
def TsBounded (t : Ts) : Prop :=
  t.year < 10000 ∧ t.month < 100 ∧ t.day < 100 ∧ t.hour < 100 ∧
    t.minute < 100 ∧ t.second < 100 ∧ t.ms < 1000

instance (t : Ts) : Decidable (TsBounded t) := by
  unfold TsBounded; infer_instance

/-! ## The JSON envelope codec (odm.py, `OdmEncoder` / `decode_object`)

```
class OdmEncoder(json.JSONEncoder):
    def default(self, o):
        if (isinstance(o, Odm)):
            return {'__{}__'.format(o.__class__.__name__): o.__dict__}
        elif isinstance(o, pd.Timestamp):
            return {'__Timestamp__': str(o)}
        elif isinstance(o, pd.DataFrame):
            return {'__DataFrame__':
                    o.to_json(date_format='iso', orient='split')}
        else:
            return json.JSONEncoder.default(self, o)

def decode_object(o):
    if '__Odm__' in o:
        a = Odm(o['__Odm__'],)
        a.__dict__.update(o['__Odm__'])
        return a
    elif '__DataFrame__' in o:
        a = pd.read_json(o['__DataFrame__'], orient='split')
        return(a)
    elif '__Timestamp__' in o:
        return pd.to_datetime(o['__Timestamp__'])
    else:
        return o
```

JSON documents are modelled as an AST `JVal`; `json.dumps`/`json.loads` of
the document text is the identity on this AST (an exact round trip).  The
`__DataFrame__` payload is a *string* holding the nested `to_json` output;
the constructor `jdoc` models such an embedded document string (the object
hook of `json.loads` does not recurse into it — `read_json` parses it
separately, which `dfFromJson` models).  Decoded Python values are `PyVal`;
`json.loads(..., object_hook=decode_object)` applies the hook to every
object bottom-up, modelled by `decodeJVal`.  Failures inside the hook
(a `read_json` error, or attribute payloads the `Odm` constructor cannot
take) are `none`. -/

/-- A JSON value.  `jdoc v` is a JSON *string* whose text is the
serialization of `v`. -/
inductive JVal where
  | jnull
  | jbool (b : Bool)
  | jnum (q : ℚ)
  | jstr (s : String)
  | jdoc (v : JVal)
  | jarr (xs : List JVal)
  | jobj (kvs : List (String × JVal))
  deriving Repr

/-- The `Odm` container: the ten canonical table attributes, in the order
`__init__` assigns them (the `lookup` constructor argument is accepted but
never stored, exactly as in the source). -/
structure OdmModel where
  sample : Option DataFrame
  ww_measure : Option DataFrame
  site : Option DataFrame
  site_measure : Option DataFrame
  reporter : Option DataFrame
  lab : Option DataFrame
  assay_method : Option DataFrame
  instrument : Option DataFrame
  polygon : Option DataFrame
  cphd : Option DataFrame
  deriving DecidableEq, Repr

/-- A decoded Python value as produced by `json.loads` with the
`decode_object` hook. -/
inductive PyVal where
  | vnull
  | vbool (b : Bool)
  | vnum (q : ℚ)
  | vstr (s : String)
  | vdoc (v : JVal)
  | vlist (xs : List PyVal)
  | vdict (kvs : List (String × PyVal))
  | vdf (df : DataFrame)
  | vts (t : Ts)
  | vodm (o : OdmModel)
  deriving Repr

/-! ### Encoding -/

/-- `to_json` rendering of one cell (`date_format="iso"`). -/
def cellToJson : Cell → JVal
  | .cstr s => .jstr s
  | .cnum q => .jnum q
  | .cbool b => .jbool b
  | .cts t => .jstr (isoFormat t)
  | .cnull => .jnull

/-- The raw cell `read_json` reads back for an encoded cell, before column
type inference: a timestamp travels as its ISO string, everything else is
itself (`jsonToRawCell` after `cellToJson`). -/
def cellWire (v : Cell) : Cell :=
  match v with
  | .cts t => .cstr (isoFormat t)
  | v => v

/-- `df.to_json(date_format="iso", orient="split")`: the split orientation
records the column names, the (default, positional) index and the row-major
data. -/
def dfToJson (df : DataFrame) : JVal :=
  .jobj [("columns", .jarr (df.cols.map (fun c => .jstr c.name))),
         ("index", .jarr ((List.range df.nrows).map (fun i => .jnum i))),
         ("data", .jarr ((List.range df.nrows).map (fun i =>
           .jarr (df.cols.map (fun c => cellToJson (c.vals.getD i .cnull))))))]

/-- Encoding of one `Odm` attribute inside `json.dumps`: `None` is native
`null`; a table goes through `OdmEncoder.default`, producing the tagged
envelope whose payload is the `to_json` string. -/
def encAttr : Option DataFrame → JVal
  | none => .jnull
  | some df => .jobj [("__DataFrame__", .jdoc (dfToJson df))]

/-- `json.dumps(odm, cls=OdmEncoder)`: the container encodes as
`{"__Odm__": {attribute: encoded value, ...}}` over `__dict__`, whose keys
follow the constructor's assignment order. -/
def encodeOdm (o : OdmModel) : JVal :=
  .jobj [("__Odm__", .jobj
    [("sample", encAttr o.sample),
     ("ww_measure", encAttr o.ww_measure),
     ("site", encAttr o.site),
     ("site_measure", encAttr o.site_measure),
     ("reporter", encAttr o.reporter),
     ("lab", encAttr o.lab),
     ("assay_method", encAttr o.assay_method),
     ("instrument", encAttr o.instrument),
     ("polygon", encAttr o.polygon),
     ("cphd", encAttr o.cphd)])]

/-! ### Decoding (`pd.read_json(..., orient="split")` and the object hook) -/

/-- Is the column name one that `read_json` will attempt to parse as dates?
pandas' default heuristic: the lower-cased name ends with `_at` or `_time`,
equals `modified`, `date` or `datetime`, or starts with `timestamp`. -/
def isOkDateName (nm : String) : Bool :=
  let l := lcl nm.data
  endsL "_at".data l || endsL "_time".data l ||
    l = "modified".data || l = "date".data || l = "datetime".data ||
    startsL "timestamp".data l

/-- The raw cell a JSON scalar parses to, before column type inference. -/
def jsonToRawCell : JVal → Option Cell
  | .jnull => some .cnull
  | .jbool b => some (.cbool b)
  | .jnum q => some (.cnum q)
  | .jstr s => some (.cstr s)
  | _ => none

/-- The string-column date conversion `read_json` attempts on date-named
columns (`_try_convert_to_date` via `to_datetime`): succeeds when every
value is a string in the ISO form the codec writes.  The branch that
interprets large epoch numbers as dates is outside this model; the theorems
below keep numeric columns away from date-like names. -/
def tryConvertDates (raw : List Cell) : Option (List Ts) :=
  if raw.isEmpty then none
  else raw.mapM (fun v => match v with | .cstr s => parseIso s | _ => none)

/-- The dtype inference `read_json` applies to a column that was not
converted to dates (`_try_convert_data`): a column of strings that all
parse as floats becomes numeric; a numeric column whose values are all
integral is narrowed to int64; columns of booleans stay boolean; everything
else stays object. -/
def inferData (nm : String) (raw : List Cell) : Col :=
  if !raw.isEmpty && raw.all (fun v => match v with | .cstr _ => true | _ => false) then
    match raw.mapM (fun v => match v with | .cstr s => pyFloat? s | _ => none) with
    | some qs =>
      if qs.all (fun q => q.den = 1) then ⟨nm, .int64, qs.map .cnum⟩
      else ⟨nm, .float64, qs.map .cnum⟩
    | none => ⟨nm, .object, raw⟩
  else if !raw.isEmpty && raw.all (fun v => match v with | .cnum _ => true | _ => false) then
    if raw.all (fun v => match v with | .cnum q => q.den = 1 | _ => true) then
      ⟨nm, .int64, raw⟩
    else ⟨nm, .float64, raw⟩
  else if !raw.isEmpty && raw.all (fun v => match v with | .cbool _ => true | _ => false) then
    ⟨nm, .boolDt, raw⟩
  else ⟨nm, .object, raw⟩

/-- Per-column type restoration: date conversion first (only on date-named
columns), then general inference. -/
def inferCol (nm : String) (raw : List Cell) : Col :=
  if isOkDateName nm then
    match tryConvertDates raw with
    | some ts => ⟨nm, .datetime64, ts.map .cts⟩
    | none => inferData nm raw
  else inferData nm raw

/-- `pd.read_json(payload, orient="split")` on the document AST. -/
def dfFromJson (v : JVal) : Option DataFrame :=
  match v with
  | .jobj kvs =>
    match kvs.lookup "columns", kvs.lookup "data" with
    | some (.jarr cjs), some (.jarr rjs) => do
      let names ← cjs.mapM (fun c => match c with | .jstr s => some s | _ => none)
      let rows ← rjs.mapM (fun r => match r with
        | .jarr cells => cells.mapM jsonToRawCell
        | _ => none)
      if rows.all (fun r => r.length = names.length) then
        some ⟨(List.range names.length).map (fun j =>
          inferCol (names.getD j "") (rows.map (fun r => r.getD j .cnull)))⟩
      else none
    | _, _ => none
  | _ => none

/-- Reading one decoded `__Odm__` attribute back into the constructor /
`__dict__.update` of `Odm`: `null` is an absent table, a decoded table is
the table.  Other payloads cannot be stored in this typed model. -/
def fromAttrVal : PyVal → Option (Option DataFrame)
  | .vnull => some none
  | .vdf df => some (some df)
  | _ => none

/-- Rebuild the container from the decoded `__Odm__` dictionary
(`Odm(o['__Odm__'])` followed by `a.__dict__.update(o['__Odm__'])`: the
update overwrites every attribute the encoder emitted). -/
def buildOdm (kvs : List (String × PyVal)) : Option OdmModel := do
  let sample ← (kvs.lookup "sample").bind fromAttrVal
  let ww_measure ← (kvs.lookup "ww_measure").bind fromAttrVal
  let site ← (kvs.lookup "site").bind fromAttrVal
  let site_measure ← (kvs.lookup "site_measure").bind fromAttrVal
  let reporter ← (kvs.lookup "reporter").bind fromAttrVal
  let lab ← (kvs.lookup "lab").bind fromAttrVal
  let assay_method ← (kvs.lookup "assay_method").bind fromAttrVal
  let instrument ← (kvs.lookup "instrument").bind fromAttrVal
  let polygon ← (kvs.lookup "polygon").bind fromAttrVal
  let cphd ← (kvs.lookup "cphd").bind fromAttrVal
  pure ⟨sample, ww_measure, site, site_measure, reporter, lab, assay_method,
        instrument, polygon, cphd⟩

/-- `decode_object`, applied by `json.loads` to every decoded JSON object:
recognize the `__Odm__`, `__DataFrame__` and `__Timestamp__` tags in the
source's order; pass unrecognized objects through unchanged. -/
def applyHook (kvs : List (String × PyVal)) : Option PyVal :=
  match kvs.lookup "__Odm__" with
  | some (.vdict fields) => (buildOdm fields).map .vodm
  | some _ => none
  | none =>
    match kvs.lookup "__DataFrame__" with
    | some (.vdoc v) => (dfFromJson v).map .vdf
    | some _ => none
    | none =>
      match kvs.lookup "__Timestamp__" with
      | some (.vstr s) => (parseIso s).map .vts
      | some _ => none
      | none => some (.vdict kvs)

mutual

/-- `json.loads(text, object_hook=decode_object)` on the document AST:
structural decoding with the hook applied to every object bottom-up. -/
def decodeJVal : JVal → Option PyVal
  | .jnull => some .vnull
  | .jbool b => some (.vbool b)
  | .jnum q => some (.vnum q)
  | .jstr s => some (.vstr s)
  | .jdoc v => some (.vdoc v)
  | .jarr xs => (decodeJList xs).map .vlist
  | .jobj kvs => (decodeJKVs kvs).bind applyHook

def decodeJList : List JVal → Option (List PyVal)
  | [] => some []
  | v :: vs => do
    let a ← decodeJVal v
    let rest ← decodeJList vs
    pure (a :: rest)

def decodeJKVs : List (String × JVal) → Option (List (String × PyVal))
  | [] => some []
  | (k, v) :: kvs => do
    let a ← decodeJVal v
    let rest ← decodeJKVs kvs
    pure ((k, a) :: rest)

end

/-! ## `add_to_attr` (odm.py, lines 339-356)

```
def add_to_attr(self, attribute, new_df):
    current_value = getattr(self, attribute)
    if current_value is None:
        setattr(self, attribute, new_df)
        return
    try:
        combined_df = current_value.append(new_df).drop_duplicates()
        setattr(self, attribute, combined_df)
    except Exception as e:
        print(e)
        setattr(self, attribute, current_value)
    return
```

The attribute is an `Option DataFrame`; the append-and-deduplicate
concatenation is a parameter `app` (whatever pandas exception it raises is
an `Except.error`), since the claims about this operation concern its
success and failure paths, not a particular concatenation. -/

/-- `add_to_attr`: returns the attribute's new value.  The operation itself
is total — exceptions from the concatenation are caught, logged and the old
value restored. -/
def add_to_attr (app : DataFrame → DataFrame → Except String DataFrame)
    (current : Option DataFrame) (new_df : DataFrame) : Option DataFrame :=
  match current with
  | none => some new_df
  | some cur =>
    match app cur new_df with
    | .ok combined => some combined
    | .error _ => some cur

/-! ## `__widen` (odm.py, lines 119-190)

For every feature and every row of a deep copy of the input, a composite
column name is built from the row's qualifier values (`str()`-ed, `/`
replaced by `-`, and for a qualifier named exactly `qualityFlag` the texts
`True`/`False` replaced by `quality_issue`/`no_issue`), dot-joined and
suffixed with the feature name.  The feature value is written at that row
in the (lazily created) column; finally the feature and qualifier columns
are dropped. -/

/-- Python `str()` of a cell, as the qualifier values go through it.  The
tables the source widens carry strings (and the boolean `qualityFlag`) in
their qualifier columns; numeric and missing renderings follow Python. -/
def cellStr : Cell → String
  | .cstr s => s
  | .cbool b => if b then "True" else "False"
  | .cnum q => if q.den = 1 then toString q.num ++ ".0" else toString q.num
  | .cts t => isoFormat t
  | .cnull => "nan"

/-- The transformed text of one qualifier value for column naming. -/
def qualText (qualifier : String) (v : Cell) : String :=
  let t := replaceAllCS "/".data "-".data (cellStr v).data
  if qualifier = "qualityFlag" then
    String.mk (replaceAllCS "False".data "no_issue".data
      (replaceAllCS "True".data "quality_issue".data t))
  else String.mk t

/-- The generated column name for one feature at one row of the snapshot. -/
def widenName (snap : DataFrame) (qualifiers : List String) (feature : String)
    (i : Nat) : String :=
  let qualifying_text := String.intercalate "."
    (qualifiers.map (fun q => qualText q ((snap.cell? q i).getD .cnull)))
  qualifying_text ++ "." ++ feature

/-- The cell content of a freshly created all-`None` column after
`astype(feature_dtype)` (`__default_value_by_dtype` gives the matching
missing value; an `int64` target cannot hold `None` and the cast raises). -/
def initCell : Dtype → Except String Cell
  | .object => .ok .cnull
  | .float64 => .ok .cnull
  | .datetime64 => .ok .cnull
  | .int64 => .error "TypeError: astype int64 from None"
  | .boolDt => .error "astype bool from None outside the model"

/-- Processing one (feature, row) pair of the widen loops: create the
column if it does not exist yet, then set the cell. -/
def widenStep (snap : DataFrame) (qualifiers : List String) (feature : String)
    (df : DataFrame) (i : Nat) : Except String DataFrame := do
  let fname := widenName snap qualifiers feature i
  let fval := (snap.cell? feature i).getD .cnull
  match df.col? feature with
  | none => .error "KeyError: feature column missing"
  | some fcol => do
    let df ←
      if fname ∈ df.names then pure df
      else do
        let init ← initCell fcol.dtype
        pure ⟨df.cols ++ [⟨fname, fcol.dtype, List.replicate snap.nrows init⟩]⟩
    pure (df.setCell fname i fval)

/-- `__widen(df, features, qualifiers)`. -/
def widen (df : DataFrame) (features qualifiers : List String) :
    Except String DataFrame := do
  let snap := df
  let out ← features.foldlM (fun acc feature =>
    (List.range snap.nrows).foldlM (fun acc2 i =>
      widenStep snap qualifiers feature acc2 i) acc) df
  out.dropCols (features ++ qualifiers)

/-! ## `__parse_sample` (odm.py, lines 274-305)

Iterates a deep copy of the sample table; a row whose `siteID` field holds
a `;`-separated list is split (`set` of stripped parts), the first popped
id overwrites the row in place and each remaining id is appended as a copy
of the (already updated) row; then `dateTimeStart`/`dateTimeEnd` are filled
from `dateTime`, `dateTime` is dropped and all columns get the `Sample.`
prefix.  The iteration order of the Python string set (`set.pop` plus
iteration, which is implementation-defined) is the parameter `pick`: it
receives the stripped parts and returns them deduplicated, in the order the
set hands them out. -/

/-- Explosion of row `i` for the id list `ids` (first id in place, the rest
appended as copies of the updated row). -/
def explodeRow (df : DataFrame) (i : Nat) : List String → DataFrame
  | [] => df
  | x :: rest =>
    let df := df.setCell "siteID" i (.cstr x)
    rest.foldl (fun acc y => acc.appendRowFrom i "siteID" (.cstr y)) df

/-- One iteration of the site-explosion loop, reading the snapshot row. -/
def sampleStep (pick : List String → List String) (snap : DataFrame)
    (df : DataFrame) (i : Nat) : Except String DataFrame :=
  match (snap.cell? "siteID" i).getD .cnull with
  | .cstr s =>
    if ';' ∈ s.data then
      Except.ok (explodeRow df i
        (pick ((splitOnSep ';' s.data).map (fun part => String.mk (pyStrip part)))))
    else Except.ok df
  | _ => Except.error "TypeError: argument of type is not iterable"

/-- Fill missing values of column `target` from the aligned column `src`. -/
def fillnaFrom (df : DataFrame) (target src : String) : Except String DataFrame :=
  match df.col? target, df.col? src with
  | some tc, some sc =>
    Except.ok ⟨df.cols.map (fun c =>
      if c.name = target then
        { c with vals := (List.range tc.vals.length).map (fun i =>
            match tc.vals.getD i .cnull with
            | .cnull => sc.vals.getD i .cnull
            | v => v) }
      else c)⟩
  | _, _ => Except.error "KeyError: fillna on a missing column"

/-- `__parse_sample()` on the sample table. -/
def parse_sample (pick : List String → List String) (df : DataFrame) :
    Except String DataFrame := do
  let snap := df
  let exploded ← (List.range snap.nrows).foldlM (sampleStep pick snap) df
  let filled1 ← fillnaFrom exploded "dateTimeStart" "dateTime"
  let filled2 ← fillnaFrom filled1 "dateTimeEnd" "dateTime"
  let dropped ← filled2.dropCols ["dateTime"]
  pure (dropped.addPrefixTo "Sample.")

/-! ## `get_geoJSON` (odm.py, lines 465-493)

One Feature per polygon row: the geometry is the delegated WKT conversion
of the row's `wkt` field (the external `utilities.convert_wkt_to_geojson`,
a parameter here), the properties are every column whose name does not
contain `"wkt"`, and the id is the row's (default, positional) index. -/

/-- One GeoJSON feature of the output collection. -/
structure GeoFeature where
  geometry : JVal
  properties : List (String × Cell)
  id : Nat
  deriving Repr

/-- `get_geoJSON()`: the `features` list of the returned FeatureCollection.
Accessing `row["wkt"]` on a table without that column raises. -/
def get_geoJSON (conv : Cell → JVal) (polygon : DataFrame) :
    Except String (List GeoFeature) :=
  if "wkt" ∈ polygon.names then
    Except.ok ((List.range polygon.nrows).map (fun i =>
      { geometry := conv ((polygon.cell? "wkt" i).getD .cnull)
        properties := (polygon.cols.filter
            (fun c => !containsSub "wkt".data c.name.data)).map
          (fun c => (c.name, c.vals.getD i .cnull))
        id := i }))
  else Except.error "KeyError: wkt"

/-! ## `combine_cphd_by_geo` and the tail of `combine_per_sample`
(odm.py, lines 615-659)

The nested helper's body is the single statement `return merged`; `merged`
is not assigned inside the helper, so it resolves (as a closure read at
call time) to the enclosing `combine_per_sample` local — the running merged
table produced by the Site join.  Both parameters are ignored.  The caller
then does `merged.set_index("Sample.sampleID", inplace=True)`. -/

/-- A table with one column moved out as its index. -/
structure IndexedDF where
  indexName : String
  indexVals : List Cell
  df : DataFrame
  deriving Repr

/-- `df.set_index(col, inplace=True)` (a `KeyError` when absent). -/
def set_index (df : DataFrame) (colName : String) : Except String IndexedDF :=
  match df.col? colName with
  | some c => Except.ok ⟨colName, c.vals, ⟨df.cols.filter (fun d => d.name ≠ colName)⟩⟩
  | none => Except.error "KeyError: set_index on a missing column"

/-- The nested helper.  `closure_merged` is the enclosing function's
`merged` variable, which the `return merged` statement reads; the two
declared parameters are unused. -/
def combine_cphd_by_geo (sample cphd closure_merged : DataFrame) : DataFrame :=
  closure_merged

/-- The tail of `combine_per_sample` from its CPHD step on: the helper is
called as `combine_cphd_by_geo(merged, cphd)` with `merged` also visible
through the closure, and the result is indexed by sample id. -/
def combine_per_sample_tail (merged cphd : DataFrame) : Except String IndexedDF :=
  set_index (combine_cphd_by_geo merged cphd merged) "Sample.sampleID"

/-! ## Auxiliary predicates and concrete fixtures used by the theorems -/

/-- A registry fragment in the shape `get_data_types` builds: the
`WWMeasure` table with a boolean quality flag, another boolean column, an
integer column and a float column. -/
def regLookupT : String → Option String := fun v =>
  if v = "qualityflag" then some "bool"
  else if v = "otherflag" then some "bool"
  else if v = "index" then some "int64"
  else if v = "value" then some "float64"
  else if v = "note" then some "string"
  else none

def regT : Registry := fun t =>
  if t = "WWMeasure" then some regLookupT else none

/-- Sufficient conditions under which `read_json`'s per-column inference
restores a column of the encoded table exactly: its dtype must survive the
date-name heuristic and the numeric narrowing of the decoder. -/
def colRoundTripsB (c : Col) : Bool :=
  !c.vals.isEmpty &&
  match c.dtype with
  | .object =>
    !isOkDateName c.name &&
    c.vals.all (fun v => match v with | .cstr _ => true | _ => false) &&
    !(c.vals.all (fun v => match v with | .cstr s => (pyFloat? s).isSome | _ => false))
  | .float64 =>
    !isOkDateName c.name &&
    c.vals.all (fun v => match v with | .cnum _ => true | _ => false) &&
    !(c.vals.all (fun v => match v with | .cnum q => q.den = 1 | _ => false))
  | .int64 =>
    !isOkDateName c.name &&
    c.vals.all (fun v => match v with | .cnum q => q.den = 1 | _ => false)
  | .boolDt => c.vals.all (fun v => match v with | .cbool _ => true | _ => false)
  | .datetime64 =>
    isOkDateName c.name &&
    c.vals.all (fun v => match v with | .cts t => decide (TsBounded t) | _ => false)

/-- A table every column of which round-trips through the codec. -/
def dfRoundTripReady (df : DataFrame) : Prop :=
  df.Rect ∧ ∀ c ∈ df.cols, colRoundTripsB c = true

instance (df : DataFrame) : Decidable (dfRoundTripReady df) := by
  unfold dfRoundTripReady; infer_instance

/-- Observation used on decoded values: the (name, dtype) signature of the
`site` attribute's table of a decoded container. -/
def siteColTypes (p : Option PyVal) : Option (List (String × Dtype)) :=
  match p with
  | some (.vodm m) => m.site.map (fun df => df.cols.map (fun c => (c.name, c.dtype)))
  | _ => none

/-- A table with a text column, a numeric column and a timestamp column
whose name (`t`) is not date-like for the decoder. -/
def badDf : DataFrame :=
  ⟨[⟨"station", .object, [.cstr "x"]⟩,
    ⟨"conc", .float64, [.cnum (mkRat 3 2)]⟩,
    ⟨"t", .datetime64, [.cts ⟨2021, 3, 14, 15, 9, 2, 653⟩]⟩]⟩

/-- A container holding `badDf` as its `site` table. -/
def badOdm : OdmModel :=
  ⟨none, none, some badDf, none, none, none, none, none, none, none⟩

/-- Like `badDf` but with the timestamp column named `dateTime`. -/
def rtDf : DataFrame :=
  ⟨[⟨"station", .object, [.cstr "x", .cstr "y"]⟩,
    ⟨"conc", .float64, [.cnum (mkRat 3 2), .cnum 2]⟩,
    ⟨"dateTime", .datetime64,
      [.cts ⟨2021, 3, 14, 15, 9, 2, 653⟩, .cts ⟨2021, 3, 15, 0, 0, 0, 0⟩]⟩]⟩

/-- A container holding `rtDf` as its `site` table. -/
def rtOdm : OdmModel :=
  ⟨none, none, some rtDf, none, none, none, none, none, none, none⟩

/-- Decidable form of "every table the container holds round-trips". -/
def odmReadyB (o : OdmModel) : Bool :=
  [o.sample, o.ww_measure, o.site, o.site_measure, o.reporter, o.lab,
   o.assay_method, o.instrument, o.polygon, o.cphd].all
    (fun a => a.all (fun df => decide (dfRoundTripReady df)))

/-- The `(type, unit)` qualifier combination of each row, as `__widen`
reads it. -/
def typeUnitCombos (df : DataFrame) : List (String × String) :=
  (List.range df.nrows).map (fun i =>
    (cellStr ((df.cell? "type" i).getD .cnull),
     cellStr ((df.cell? "unit" i).getD .cnull)))

/-- The generated column name for feature `value` of a `(type, unit)`
combination. -/
def comboName (c : String × String) : String :=
  String.intercalate "."
    [String.mk (replaceAllCS "/".data "-".data c.1.data),
     String.mk (replaceAllCS "/".data "-".data c.2.data)] ++ "." ++ "value"

/-- A long table whose two rows carry two distinct `(type, unit)`
combinations whose substituted composite names collide
(`a/b` and `a-b` both name the column `a-b.u.value`). -/
def collideDf : DataFrame :=
  ⟨[⟨"value", .float64, [.cnum 1, .cnum 2]⟩,
    ⟨"type", .object, [.cstr "a/b", .cstr "a-b"]⟩,
    ⟨"unit", .object, [.cstr "u", .cstr "u"]⟩]⟩

/-- A long table with two distinct, non-colliding `(type, unit)`
combinations over three rows. -/
def wideDf : DataFrame :=
  ⟨[⟨"sampleID", .object, [.cstr "a", .cstr "b", .cstr "c"]⟩,
    ⟨"value", .float64, [.cnum 1, .cnum 2, .cnum 3]⟩,
    ⟨"type", .object, [.cstr "covN1", .cstr "covN2", .cstr "covN1"]⟩,
    ⟨"unit", .object, [.cstr "gc/ml", .cstr "gc-l", .cstr "gc/ml"]⟩]⟩

/-- A sample table whose first row lists two sites. -/
def sampleDf6 : DataFrame :=
  ⟨[⟨"sampleID", .object, [.cstr "s1", .cstr "s2"]⟩,
    ⟨"siteID", .object, [.cstr "A; B", .cstr "C"]⟩,
    ⟨"dateTime", .datetime64, [.cnull, .cnull]⟩,
    ⟨"dateTimeStart", .datetime64,
      [.cts ⟨2021, 1, 1, 0, 0, 0, 0⟩, .cts ⟨2021, 2, 1, 0, 0, 0, 0⟩]⟩,
    ⟨"dateTimeEnd", .datetime64,
      [.cts ⟨2021, 1, 2, 0, 0, 0, 0⟩, .cts ⟨2021, 2, 2, 0, 0, 0, 0⟩]⟩]⟩

/-- A sample table whose first row carries only the instant timestamp. -/
def sampleDf7 : DataFrame :=
  ⟨[⟨"sampleID", .object, [.cstr "s1"]⟩,
    ⟨"siteID", .object, [.cstr "A"]⟩,
    ⟨"dateTime", .datetime64, [.cts ⟨2021, 1, 1, 0, 0, 0, 0⟩]⟩,
    ⟨"dateTimeStart", .datetime64, [.cnull]⟩,
    ⟨"dateTimeEnd", .datetime64, [.cnull]⟩]⟩

/-- A polygon table with one geometry column and two descriptive columns. -/
def polyDf : DataFrame :=
  ⟨[⟨"polygonID", .object, [.cstr "p1", .cstr "p2"]⟩,
    ⟨"name", .object, [.cstr "east catchment", .cstr "west catchment"]⟩,
    ⟨"wkt", .object, [.cstr "POLYGON ((0 0, 1 0, 1 1))", .cstr "POLYGON ((2 2, 3 2, 3 3))"]⟩]⟩

/-- A merged per-sample table as it stands after the Site join. -/
def mergedDf10 : DataFrame :=
  ⟨[⟨"Sample.sampleID", .object, [.cstr "s1"]⟩,
    ⟨"Sample.siteID", .object, [.cstr "A"]⟩,
    ⟨"Site.name", .object, [.cstr "east"]⟩]⟩

/-- A parsed public-health table. -/
def cphdDf10 : DataFrame :=
  ⟨[⟨"CPHD.cphdID", .object, [.cstr "h1"]⟩,
    ⟨"CPHD.polygonID", .object, [.cstr "p9"]⟩]⟩

/-! # Lemmas and theorems -/

/-! ## Generic helpers -/

theorem col?_spec (df : DataFrame) (nm : String) (h : nm ∈ df.names) :
    ∃ c, df.col? nm = some c ∧ c ∈ df.cols ∧ c.name = nm := by
  have h2 : (df.col? nm).isSome := by
    rw [DataFrame.col?, List.find?_isSome]
    obtain ⟨c, hc, hn⟩ := List.mem_map.mp h
    exact ⟨c, hc, by simp [hn]⟩
  obtain ⟨c, hc⟩ := Option.isSome_iff_exists.mp h2
  exact ⟨c, hc, List.mem_of_find?_eq_some hc, by simpa using List.find?_some hc⟩

theorem col?_map_pres (cols : List Col) (f : Col → Col)
    (hf : ∀ c, (f c).name = c.name) (nm : String) :
    DataFrame.col? ⟨cols.map f⟩ nm = (DataFrame.col? ⟨cols⟩ nm).map f := by
  show List.find? _ (cols.map f) = _
  rw [List.find?_map]
  have he : ((fun c => decide (c.name = nm)) ∘ f) = (fun (c : Col) => decide (c.name = nm)) := by
    funext c
    simp [Function.comp, hf]
  rw [he]
  rfl

theorem find?_filter_of_imp {α : Type} (l : List α) (p q : α → Bool)
    (h : ∀ a, p a = true → q a = true) :
    (l.filter q).find? p = l.find? p := by
  induction l with
  | nil => rfl
  | cons a l ih =>
    rw [List.filter_cons]
    cases hp : p a with
    | true =>
      rw [if_pos (h a hp)]
      simp [List.find?_cons, hp, ih]
    | false =>
      by_cases hq : q a = true
      · rw [if_pos hq]
        simp [List.find?_cons, hp, ih]
      · rw [if_neg hq]
        simp [List.find?_cons, hp, ih]

theorem strAppendCancel (p a b : String) (h : p ++ a = p ++ b) : a = b := by
  apply String.ext
  have := congrArg String.data h
  simp only [String.data_append] at this
  exact List.append_cancel_left this

theorem foldlM_noop {β : Type} (step : β → Nat → Except String β) (l : List Nat)
    (b : β) (h : ∀ j ∈ l, ∀ d, step d j = .ok d) :
    l.foldlM step b = .ok b := by
  induction l generalizing b with
  | nil => rfl
  | cons a l ih =>
    rw [List.foldlM_cons, h a (by simp) b]
    show l.foldlM step b = .ok b
    exact ih b (fun j hj d => h j (by simp [hj]) d)

theorem foldlM_single {β : Type} (step : β → Nat → Except String β) (i : Nat)
    (l1 l2 : List Nat) (g : β → β) (b : β)
    (h : ∀ j ∈ l1 ++ l2, ∀ d, step d j = .ok d)
    (hi : ∀ d, step d i = .ok (g d)) :
    (l1 ++ i :: l2).foldlM step b = .ok (g b) := by
  induction l1 generalizing b with
  | nil =>
    rw [List.nil_append, List.foldlM_cons, hi b]
    show l2.foldlM step (g b) = .ok (g b)
    exact foldlM_noop step l2 (g b) (fun j hj d => h j (by simp [hj]) d)
  | cons a l1 ih =>
    rw [List.cons_append, List.foldlM_cons, h a (by simp) b]
    show (l1 ++ i :: l2).foldlM step b = .ok (g b)
    exact ih b (fun j hj d => h j (by simp at hj ⊢; tauto) d)

theorem range_split (i n : Nat) (h : i < n) :
    List.range n = List.range i ++ i :: List.range' (i + 1) (n - i - 1) := by
  rw [List.range_eq_range', List.range_eq_range']
  have h1 : List.range' 0 i ++ List.range' (0 + 1 * i) (n - i) = List.range' 0 (n - i + i) :=
    List.range'_append 0 i (n - i) 1
  simp only [Nat.zero_add, Nat.one_mul] at h1
  rw [Nat.sub_add_cancel (Nat.le_of_lt h)] at h1
  rw [← h1]
  congr 1
  have h2 : n - i = (n - i - 1) + 1 := by omega
  rw [h2]
  rfl

theorem except_bind_ok {α β : Type} (a : α) (f : α → Except String β) :
    (Except.ok a >>= f) = f a := rfl

theorem getD_map_range {α : Type} (n i : Nat) (g : Nat → α) (h : i < n) (d : α) :
    ((List.range n).map g).getD i d = g i := by
  have hl : i < ((List.range n).map g).length := by simpa using h
  rw [List.getD_eq_getElem _ _ hl, List.getElem_map, List.getElem_range]

theorem names_map_pres (cols : List Col) (f : Col → Col)
    (hf : ∀ c, (f c).name = c.name) :
    DataFrame.names ⟨cols.map f⟩ = DataFrame.names ⟨cols⟩ := by
  show (cols.map f).map Col.name = cols.map Col.name
  rw [List.map_map]
  congr 1
  funext c
  exact hf c

theorem col?_addPrefixTo (df : DataFrame) (p nm : String) :
    (df.addPrefixTo p).col? (p ++ nm)
      = (df.col? nm).map (fun c => { c with name := p ++ c.name }) := by
  show List.find? _ (df.cols.map _) = _
  rw [List.find?_map]
  have he : ((fun (c : Col) => decide (c.name = p ++ nm)) ∘
      (fun c => { c with name := p ++ c.name })) =
      (fun (c : Col) => decide (c.name = nm)) := by
    funext c
    simp only [Function.comp]
    exact decide_eq_decide.mpr ⟨fun h => strAppendCancel p _ _ h, fun h => by rw [h]⟩
  rw [he]
  rfl

theorem addPrefixTo_names (df : DataFrame) (p : String) :
    (df.addPrefixTo p).names = df.names.map (fun n => p ++ n) := by
  show (df.cols.map _).map Col.name = (df.cols.map Col.name).map _
  rw [List.map_map, List.map_map]
  rfl

theorem dropCols_ok (df : DataFrame) (l : List String)
    (h : ∀ n ∈ l, n ∈ df.names) :
    df.dropCols l = .ok ⟨df.cols.filter (fun c => c.name ∉ l)⟩ := by
  unfold DataFrame.dropCols
  rw [if_pos]
  rw [List.all_eq_true]
  intro n hn
  simpa using h n hn

theorem col?_filter_not_mem (cols : List Col) (l : List String) (nm : String)
    (h : nm ∉ l) :
    DataFrame.col? ⟨cols.filter (fun c => c.name ∉ l)⟩ nm
      = DataFrame.col? ⟨cols⟩ nm := by
  show (cols.filter _).find? _ = cols.find? _
  apply find?_filter_of_imp
  intro a ha
  have : a.name = nm := of_decide_eq_true ha
  rw [this]
  exact decide_eq_true h

theorem names_filter_not (cols : List Col) (l : List String) (nm : String)
    (h : nm ∈ l) :
    nm ∉ DataFrame.names ⟨cols.filter (fun c => c.name ∉ l)⟩ := by
  intro hmem
  obtain ⟨c, hc, hcn⟩ := List.mem_map.mp hmem
  have := (List.mem_filter.mp hc).2
  rw [hcn] at this
  exact (of_decide_eq_true this) h

theorem not_mem_map_prefixed (names : List String) (p nm : String)
    (h : nm ∉ names) :
    p ++ nm ∉ names.map (fun n => p ++ n) := by
  intro hmem
  obtain ⟨n, hn, he⟩ := List.mem_map.mp hmem
  rw [strAppendCancel p n nm he] at hn
  exact h hn

theorem fillnaFrom_spec (df : DataFrame) (t s : String) (tc sc : Col)
    (ht : df.col? t = some tc) (hs : df.col? s = some sc) :
    fillnaFrom df t s = .ok ⟨df.cols.map (fun c =>
      if c.name = t then
        { c with vals := (List.range tc.vals.length).map (fun i =>
            match tc.vals.getD i .cnull with
            | .cnull => sc.vals.getD i .cnull
            | v => v) }
      else c)⟩ := by
  unfold fillnaFrom
  rw [ht, hs]

theorem getD_append_lt {α : Type} (l : List α) (a d : α) (k : Nat) (hk : k < l.length) :
    (l ++ [a]).getD k d = l.getD k d := by
  have h2 : k < (l ++ [a]).length := by simp; omega
  rw [List.getD_eq_getElem _ _ h2, List.getElem_append_left hk, List.getD_eq_getElem _ _ hk]

theorem getD_append_len {α : Type} (l : List α) (a d : α) :
    (l ++ [a]).getD l.length d = a := by
  have h2 : l.length < (l ++ [a]).length := by simp
  rw [List.getD_eq_getElem _ _ h2, List.getElem_append_right (Nat.le_refl _)]
  simp

theorem getD_set_self (l : List Cell) (k : Nat) (v d : Cell) (hk : k < l.length) :
    (l.set k v).getD k d = v := by
  have h2 : k < (l.set k v).length := by simp [hk]
  rw [List.getD_eq_getElem _ _ h2, List.getElem_set_self]

theorem getD_set_ne (l : List Cell) (k j : Nat) (v d : Cell) (h : k ≠ j) :
    (l.set k v).getD j d = l.getD j d := by
  by_cases hj : j < l.length
  · have h2 : j < (l.set k v).length := by simp [hj]
    rw [List.getD_eq_getElem _ _ h2, List.getElem_set_ne h, List.getD_eq_getElem _ _ hj]
  · rw [List.getD_eq_getElem?_getD, List.getD_eq_getElem?_getD]
    have hj' : l.length ≤ j := Nat.le_of_not_lt hj
    rw [List.getElem?_eq_none (by simpa using hj'), List.getElem?_eq_none hj']

theorem fill_vals_getD (tvals svals : List Cell) (k : Nat) (hk : k < tvals.length)
    (hnn : tvals.getD k .cnull ≠ .cnull) :
    ((List.range tvals.length).map (fun j =>
      match tvals.getD j .cnull with
      | .cnull => svals.getD j .cnull
      | v => v)).getD k .cnull = tvals.getD k .cnull := by
  rw [getD_map_range _ k _ hk]
  cases h : tvals.getD k .cnull with
  | cnull => exact absurd h hnn
  | cstr s => rfl
  | cnum q => rfl
  | cbool b => rfl
  | cts t => rfl

theorem sampleStep_noop (pick : List String → List String) (snap df : DataFrame)
    (j : Nat) (s : String)
    (hs : (snap.cell? "siteID" j).getD .cnull = .cstr s)
    (hsemi : ';' ∉ s.data) :
    sampleStep pick snap df j = .ok df := by
  unfold sampleStep
  rw [hs]
  show (if ';' ∈ s.data then _ else _) = _
  rw [if_neg hsemi]

theorem foldl_dedup_mem {α : Type} [DecidableEq α] :
    ∀ (l acc : List α) (x : α),
      x ∈ l.foldl (fun a b => if b ∈ a then a else a ++ [b]) acc ↔ x ∈ acc ∨ x ∈ l := by
  intro l
  induction l with
  | nil => intro acc x; simp
  | cons a l ih =>
    intro acc x
    rw [List.foldl_cons]
    by_cases h : a ∈ acc
    · rw [if_pos h, ih]
      constructor
      · rintro (hx | hx)
        · exact Or.inl hx
        · exact Or.inr (List.mem_cons_of_mem a hx)
      · rintro (hx | hx)
        · exact Or.inl hx
        · rcases List.mem_cons.mp hx with rfl | hx
          · exact Or.inl h
          · exact Or.inr hx
    · rw [if_neg h, ih]
      constructor
      · rintro (hx | hx)
        · rcases List.mem_append.mp hx with hx | hx
          · exact Or.inl hx
          · simp at hx
            exact Or.inr (by simp [hx])
        · exact Or.inr (List.mem_cons_of_mem a hx)
      · rintro (hx | hx)
        · exact Or.inl (List.mem_append.mpr (Or.inl hx))
        · rcases List.mem_cons.mp hx with rfl | hx
          · exact Or.inl (by simp)
          · exact Or.inr hx

theorem foldl_dedup_map {α β : Type} [DecidableEq α] [DecidableEq β]
    (f : α → β) (S : List α)
    (hinj : ∀ a ∈ S, ∀ b ∈ S, f a = f b → a = b) :
    ∀ (l acc : List α), (∀ a ∈ l, a ∈ S) → (∀ a ∈ acc, a ∈ S) →
      (l.map f).foldl (fun a b => if b ∈ a then a else a ++ [b]) (acc.map f)
        = (l.foldl (fun a b => if b ∈ a then a else a ++ [b]) acc).map f := by
  intro l
  induction l with
  | nil => intro acc _ _; rfl
  | cons a l ih =>
    intro acc hl hacc
    rw [List.map_cons, List.foldl_cons, List.foldl_cons]
    have hmem : f a ∈ acc.map f ↔ a ∈ acc := by
      constructor
      · intro h
        obtain ⟨b, hb, hfb⟩ := List.mem_map.mp h
        rw [hinj b (hacc b hb) a (hl a (by simp)) hfb] at hb
        exact hb
      · exact fun h => List.mem_map_of_mem f h
    by_cases h : a ∈ acc
    · rw [if_pos (hmem.mpr h), if_pos h]
      exact ih acc (fun b hb => hl b (by simp [hb])) hacc
    · rw [if_neg (fun hc => h (hmem.mp hc)), if_neg h]
      have hme : acc.map f ++ [f a] = (acc ++ [a]).map f := by
        rw [List.map_append]
        rfl
      rw [hme]
      exact ih (acc ++ [a]) (fun b hb => hl b (by simp [hb]))
        (fun b hb => by
          rcases List.mem_append.mp hb with hb | hb
          · exact hacc b hb
          · simp at hb; rw [hb]; exact hl a (by simp))

theorem setCell_names (df : DataFrame) (nm : String) (i : Nat) (v : Cell) :
    (df.setCell nm i v).names = df.names := by
  apply names_map_pres
  intro c
  by_cases h : c.name = nm <;> simp [h]

theorem setCell_col?_map (df : DataFrame) (nm : String) (i : Nat) (v : Cell) (nm' : String) :
    (df.setCell nm i v).col? nm' = (df.col? nm').map (fun c =>
      if c.name = nm then { c with vals := c.vals.set i v } else c) := by
  apply col?_map_pres
  intro c
  by_cases h : c.name = nm <;> simp [h]

theorem push_names (cols : List Col) (c : Col) :
    DataFrame.names ⟨cols ++ [c]⟩ = DataFrame.names ⟨cols⟩ ++ [c.name] := by
  show (cols ++ [c]).map Col.name = cols.map Col.name ++ [c.name]
  rw [List.map_append]
  rfl

theorem col?_push_of_some (cols : List Col) (c : Col) (nm : String) (fc : Col)
    (h : DataFrame.col? ⟨cols⟩ nm = some fc) :
    DataFrame.col? ⟨cols ++ [c]⟩ nm = some fc := by
  show (cols ++ [c]).find? _ = some fc
  rw [List.find?_append]
  have h2 : cols.find? (fun c => decide (c.name = nm)) = some fc := h
  rw [h2]
  rfl

/-- The inner loop of `__widen` for the single feature `value`: the
accumulator keeps all original columns (lengths intact, the feature column
untouched) and grows one fresh column per first occurrence of a generated
name, in scan order. -/
theorem widen_fold_inv (df : DataFrame) (quals : List String) (fc0 : Col)
    (defc : Cell) (hv : df.col? "value" = some fc0) (hvn : fc0.name = "value")
    (hvm : "value" ∈ df.names) (hinit : initCell fc0.dtype = .ok defc) :
    ∀ (l : List Nat) (acc : DataFrame) (A : List String),
      (∀ j ∈ l, widenName df quals "value" j ∉ df.names) →
      acc.names = df.names ++ A →
      (∀ c ∈ acc.cols, c.vals.length = df.nrows) →
      acc.col? "value" = some fc0 →
      ∃ acc', l.foldlM (fun a i => widenStep df quals "value" a i) acc = .ok acc' ∧
        acc'.names = df.names ++
          (l.map (widenName df quals "value")).foldl
            (fun a b => if b ∈ a then a else a ++ [b]) A ∧
        (∀ c ∈ acc'.cols, c.vals.length = df.nrows) ∧
        acc'.col? "value" = some fc0 := by
  intro l
  induction l with
  | nil =>
    intro acc A _ h1 h2 h3
    exact ⟨acc, rfl, by simpa using h1, h2, h3⟩
  | cons j l ih =>
    intro acc A hfresh h1 h2 h3
    have hfreshj : widenName df quals "value" j ∉ df.names := hfresh j (by simp)
    have hAsub : ∀ a ∈ A, a ∈ acc.names := by
      intro a ha
      rw [h1]
      exact List.mem_append.mpr (Or.inr ha)
    set fname := widenName df quals "value" j with hfname
    set fval := (df.cell? "value" j).getD .cnull with hfval
    by_cases hmem : fname ∈ acc.names
    · -- the column exists: only the cell is set
      have hstep : widenStep df quals "value" acc j = .ok (acc.setCell fname j fval) := by
        unfold widenStep
        rw [h3]
        simp only [except_bind_ok]
        rw [if_pos hmem]
        rfl
      have hmemA : fname ∈ A := by
        rw [h1] at hmem
        rcases List.mem_append.mp hmem with h | h
        · exact absurd h hfreshj
        · exact h
      have hih := ih (acc.setCell fname j fval) A
        (fun k hk => hfresh k (by simp [hk]))
        (by rw [setCell_names, h1])
        (by
          intro c hc
          obtain ⟨c0, hc0, rfl⟩ := List.mem_map.mp hc
          by_cases h : c0.name = fname
          · rw [if_pos h]
            show (c0.vals.set j fval).length = df.nrows
            rw [List.length_set]
            exact h2 c0 hc0
          · rw [if_neg h]
            exact h2 c0 hc0)
        (by
          rw [setCell_col?_map, h3, Option.map_some']
          rw [if_neg (by rw [hvn]; intro hc; rw [← hc] at hfreshj; exact hfreshj hvm)])
      obtain ⟨acc', hrun, hn, hlen, hcol⟩ := hih
      refine ⟨acc', ?_, ?_, hlen, hcol⟩
      · rw [List.foldlM_cons, hstep]
        exact hrun
      · rw [hn, List.map_cons, List.foldl_cons, if_pos hmemA]
    · -- a fresh column is created, then the cell is set
      set acc2 : DataFrame := ⟨acc.cols ++ [⟨fname, fc0.dtype, List.replicate df.nrows defc⟩]⟩
        with hacc2
      have hstep : widenStep df quals "value" acc j = .ok (acc2.setCell fname j fval) := by
        unfold widenStep
        rw [h3]
        simp only [except_bind_ok]
        rw [if_neg hmem, hinit]
        rfl
      have hmemA : fname ∉ A := fun hc => hmem (hAsub fname hc)
      have hih := ih (acc2.setCell fname j fval) (A ++ [fname])
        (fun k hk => hfresh k (by simp [hk]))
        (by
          rw [setCell_names, hacc2, push_names, h1, List.append_assoc])
        (by
          intro c hc
          obtain ⟨c0, hc0, rfl⟩ := List.mem_map.mp hc
          have hlen0 : c0.vals.length = df.nrows := by
            rw [hacc2] at hc0
            rcases List.mem_append.mp hc0 with h | h
            · exact h2 c0 h
            · simp at h
              rw [h]
              exact List.length_replicate _ _
          by_cases h : c0.name = fname
          · rw [if_pos h]
            show (c0.vals.set j fval).length = df.nrows
            rw [List.length_set]
            exact hlen0
          · rw [if_neg h]
            exact hlen0)
        (by
          rw [setCell_col?_map, hacc2, col?_push_of_some _ _ _ _ h3, Option.map_some']
          rw [if_neg (by rw [hvn]; intro hc; rw [← hc] at hfreshj; exact hfreshj hvm)])
      obtain ⟨acc', hrun, hn, hlen, hcol⟩ := hih
      refine ⟨acc', ?_, ?_, hlen, hcol⟩
      · rw [List.foldlM_cons, hstep]
        exact hrun
      · rw [hn, List.map_cons, List.foldl_cons, if_neg hmemA]

/-! ## C1, C2: the `parse_types` boolean and numeric branches -/

/-- **C1.** Contrary to the claim, a boolean-typed column named
`qualityFlag` casts the unknown token `"n/a"` to `true`, not `false`: the
source lower-cases `series.name` before the case-sensitive substring test
`"qualityFlag" in variable_name`, which therefore never succeeds, and the
unknown-token default is `"true"` for every boolean column.  The claim's
other parts hold: a boolean column not named with `qualityFlag` casts
`"n/a"` to `true`, and `"Oui"` / `"yes"` (case-insensitively) cast to
`true`. -/
theorem C1_qualityFlag_default_is_true :
    parse_types regT "WWMeasure" "qualityFlag" [.rstr "n/a"]
      = .ok (.bools [true]) ∧
    parse_types regT "WWMeasure" "otherFlag"
      [.rstr "n/a", .rstr "Oui", .rstr "OUI", .rstr "yes", .rstr "YES", .rstr "no"]
      = .ok (.bools [true, true, true, true, true, false]) := by
  constructor
  · decide
  · decide

/-- **C2.** Contrary to the claim, an integer-typed column raises on an
unparsable value: the numeric branch tests membership in
`["inst64", "float64"]` — `"inst64"` being a slip for `"int64"` — so an
integer column skips `to_numeric(errors="coerce")` and reaches the final
`astype("int64")`, which raises `ValueError` on `"abc"`.  A float-typed
column coerces the same value to the NaN sentinel as specified. -/
theorem C2_int_column_raises :
    parse_types regT "WWMeasure" "index" [.rstr "abc"]
      = .error "ValueError: invalid literal for int" ∧
    parse_types regT "WWMeasure" "value" [.rstr "abc"]
      = .ok (.floats [none]) := ⟨rfl, rfl⟩

/-! ## C3: `add_to_attr` -/

/-- **C3.** When the attribute already holds a table and the
append-and-deduplicate concatenation fails, `add_to_attr` keeps the
attribute's previous value and raises nothing (the operation is total);
when the attribute holds no data, the incoming table becomes its value
exactly. -/
theorem C3_merge_preserves_on_failure
    (app : DataFrame → DataFrame → Except String DataFrame)
    (cur new_df : DataFrame) (e : String)
    (hfail : app cur new_df = .error e) :
    add_to_attr app (some cur) new_df = some cur ∧
    add_to_attr app none new_df = some new_df := by
  refine ⟨?_, rfl⟩
  simp [add_to_attr, hfail]

/-- Witness for C3 at a concrete failing concatenation. -/
theorem C3_witness :
    add_to_attr (fun _ _ => .error "incompatible columns") (some mergedDf10) cphdDf10
      = some mergedDf10 ∧
    add_to_attr (fun _ _ => .error "incompatible columns") none cphdDf10
      = some cphdDf10 :=
  C3_merge_preserves_on_failure (fun _ _ => .error "incompatible columns")
    mergedDf10 cphdDf10 "incompatible columns" rfl

/-! ## C9: `get_geoJSON` -/

/-- **C9.** Every feature of the geospatial export carries as properties
exactly the columns whose names do not contain `"wkt"`, and its id is the
row's position. -/
theorem C9_geojson_properties (conv : Cell → JVal) (polygon : DataFrame)
    (hw : "wkt" ∈ polygon.names) :
    ∃ feats, get_geoJSON conv polygon = .ok feats ∧
      feats.length = polygon.nrows ∧
      ∀ i, i < polygon.nrows →
        (feats.getD i ⟨.jnull, [], 0⟩).id = i ∧
        (feats.getD i ⟨.jnull, [], 0⟩).properties.map Prod.fst =
          polygon.names.filter (fun n => !containsSub "wkt".data n.data) := by
  unfold get_geoJSON
  rw [if_pos hw]
  refine ⟨_, rfl, by simp, ?_⟩
  intro i hi
  have hlen : i < ((List.range polygon.nrows).map (fun i =>
      ({ geometry := conv ((polygon.cell? "wkt" i).getD .cnull)
         properties := (polygon.cols.filter
             (fun c => !containsSub "wkt".data c.name.data)).map
           (fun c => (c.name, c.vals.getD i .cnull))
         id := i } : GeoFeature))).length := by
    simpa using hi
  rw [List.getD_eq_getElem _ _ hlen, List.getElem_map]
  refine ⟨by simp [List.getElem_range], ?_⟩
  show ((polygon.cols.filter _).map _).map Prod.fst = _
  rw [List.map_map, DataFrame.names, List.filter_map]
  rfl

/-- Witness for C9 at a concrete polygon table: two descriptive columns
survive, the geometry column is excluded. -/
theorem C9_witness :
    ∃ feats, get_geoJSON (fun _ => .jnull) polyDf = .ok feats ∧
      feats.length = polyDf.nrows ∧
      ∀ i, i < polyDf.nrows →
        (feats.getD i ⟨.jnull, [], 0⟩).id = i ∧
        (feats.getD i ⟨.jnull, [], 0⟩).properties.map Prod.fst =
          polyDf.names.filter (fun n => !containsSub "wkt".data n.data) :=
  C9_geojson_properties (fun _ => .jnull) polyDf (by decide)

/-! ## C10: `combine_cphd_by_geo` and the tail of `combine_per_sample` -/

/-- **C10.** The helper ignores both of its parameters and returns the
enclosing function's running merged table; consequently the final result is
that table indexed by sample id, with no public-health-derived columns
attached, and the CPHD step produces no error. -/
theorem C10_cphd_step_is_noop (merged cphd : DataFrame)
    (h : "Sample.sampleID" ∈ merged.names) :
    (∀ a b m : DataFrame, combine_cphd_by_geo a b m = m) ∧
    ∃ out, combine_per_sample_tail merged cphd = .ok out ∧
      out.indexName = "Sample.sampleID" ∧
      out.df.cols = merged.cols.filter (fun c => c.name ≠ "Sample.sampleID") ∧
      ∀ c ∈ out.df.cols, c ∈ merged.cols := by
  refine ⟨fun _ _ _ => rfl, ?_⟩
  obtain ⟨c, hc, _, _⟩ := col?_spec merged "Sample.sampleID" h
  unfold combine_per_sample_tail combine_cphd_by_geo set_index
  rw [hc]
  exact ⟨_, rfl, rfl, rfl, fun c hc => (List.mem_filter.mp hc).1⟩

/-- Witness for C10 at a concrete merged table and public-health table. -/
theorem C10_witness :
    (∀ a b m : DataFrame, combine_cphd_by_geo a b m = m) ∧
    ∃ out, combine_per_sample_tail mergedDf10 cphdDf10 = .ok out ∧
      out.indexName = "Sample.sampleID" ∧
      out.df.cols = mergedDf10.cols.filter (fun c => c.name ≠ "Sample.sampleID") ∧
      ∀ c ∈ out.df.cols, c ∈ mergedDf10.cols :=
  C10_cphd_step_is_noop mergedDf10 cphdDf10 (by decide)

/-! ## C7: grab-sample window defaulting in `__parse_sample` -/

/-- **C7.** A sample row with only `dateTime` set (start and end missing)
yields, after canonicalization, `dateTimeStart == dateTimeEnd == dateTime`,
and the `dateTime` column is absent from the output. -/
theorem C7_grab_sample_window (pick : List String → List String)
    (df : DataFrame) (i : Nat) (v : Cell)
    (hrect : df.Rect) (hi : i < df.nrows)
    (hsid : ∀ j, j < df.nrows →
      ∃ sj, (df.cell? "siteID" j).getD .cnull = .cstr sj ∧ ';' ∉ sj.data)
    (hdt : "dateTime" ∈ df.names) (hst : "dateTimeStart" ∈ df.names)
    (hen : "dateTimeEnd" ∈ df.names)
    (hv : (df.cell? "dateTime" i).getD .cnull = v)
    (hs0 : (df.cell? "dateTimeStart" i).getD .cnull = .cnull)
    (he0 : (df.cell? "dateTimeEnd" i).getD .cnull = .cnull) :
    ∃ out, parse_sample pick df = .ok out ∧
      "Sample.dateTime" ∉ out.names ∧
      (out.cell? "Sample.dateTimeStart" i).getD .cnull = v ∧
      (out.cell? "Sample.dateTimeEnd" i).getD .cnull = v := by
  obtain ⟨tc, htc, htcm, htcn⟩ := col?_spec df "dateTimeStart" hst
  obtain ⟨ec, hec, hecm, hecn⟩ := col?_spec df "dateTimeEnd" hen
  obtain ⟨dc, hdc, hdcm, hdcn⟩ := col?_spec df "dateTime" hdt
  have htlen : tc.vals.length = df.nrows := hrect tc htcm
  have helen : ec.vals.length = df.nrows := hrect ec hecm
  -- the explosion loop is a no-op
  have hfold : (List.range df.nrows).foldlM (sampleStep pick df) df = .ok df := by
    apply foldlM_noop
    intro j hj d
    obtain ⟨sj, hsj, hsemi⟩ := hsid j (List.mem_range.mp hj)
    exact sampleStep_noop pick df d j sj hsj hsemi
  -- the two fills
  have hfill1 := fillnaFrom_spec df "dateTimeStart" "dateTime" tc dc htc hdc
  set F1 : Col → Col := fun c =>
    if c.name = "dateTimeStart" then
      { c with vals := (List.range tc.vals.length).map (fun k =>
          match tc.vals.getD k .cnull with
          | .cnull => dc.vals.getD k .cnull
          | v => v) }
    else c with hF1
  have hF1n : ∀ c, (F1 c).name = c.name := by
    intro c
    rw [hF1]
    by_cases h : c.name = "dateTimeStart" <;> simp [h]
  set df1 : DataFrame := ⟨df.cols.map F1⟩ with hdf1
  -- columns of df1
  have hc1t : df1.col? "dateTimeStart" = some (F1 tc) := by
    rw [hdf1, col?_map_pres df.cols F1 hF1n, htc, Option.map_some']
  have hc1e : df1.col? "dateTimeEnd" = some ec := by
    rw [hdf1, col?_map_pres df.cols F1 hF1n, hec, Option.map_some']
    congr 1
    simp only [hF1]
    rw [if_neg (by rw [hecn]; decide)]
  have hc1d : df1.col? "dateTime" = some dc := by
    rw [hdf1, col?_map_pres df.cols F1 hF1n, hdc, Option.map_some']
    congr 1
    simp only [hF1]
    rw [if_neg (by rw [hdcn]; decide)]
  have hfill2 := fillnaFrom_spec df1 "dateTimeEnd" "dateTime" ec dc hc1e hc1d
  set F2 : Col → Col := fun c =>
    if c.name = "dateTimeEnd" then
      { c with vals := (List.range ec.vals.length).map (fun k =>
          match ec.vals.getD k .cnull with
          | .cnull => dc.vals.getD k .cnull
          | v => v) }
    else c with hF2
  have hF2n : ∀ c, (F2 c).name = c.name := by
    intro c
    rw [hF2]
    by_cases h : c.name = "dateTimeEnd" <;> simp [h]
  set df2 : DataFrame := ⟨df1.cols.map F2⟩ with hdf2
  -- drop dateTime
  have hnames2 : df2.names = df.names := by
    rw [hdf2, names_map_pres _ _ hF2n, hdf1, names_map_pres _ _ hF1n]
  have hdrop := dropCols_ok df2 ["dateTime"] (by
    intro n hn
    rw [hnames2]
    simpa using (by simp at hn; rw [hn]; exact hdt))
  set df3 : DataFrame := ⟨df2.cols.filter (fun c => c.name ∉ ["dateTime"])⟩ with hdf3
  refine ⟨df3.addPrefixTo "Sample.", ?_, ?_, ?_, ?_⟩
  · show parse_sample pick df = _
    simp only [parse_sample]
    rw [hfold]
    simp only [except_bind_ok]
    rw [hfill1]
    simp only [except_bind_ok]
    rw [hfill2]
    simp only [except_bind_ok]
    rw [hdrop]
    simp only [except_bind_ok]
    rfl
  · rw [addPrefixTo_names]
    apply not_mem_map_prefixed
    exact names_filter_not df2.cols ["dateTime"] "dateTime" (by decide)
  · have hch : (df3.addPrefixTo "Sample.").col? ("Sample." ++ "dateTimeStart")
        = (df3.col? "dateTimeStart").map (fun c => { c with name := "Sample." ++ c.name }) :=
      col?_addPrefixTo df3 "Sample." "dateTimeStart"
    have hc3 : df3.col? "dateTimeStart" = some (F2 (F1 tc)) := by
      rw [hdf3, col?_filter_not_mem df2.cols ["dateTime"] _ (by decide), hdf2,
        col?_map_pres df1.cols F2 hF2n, hc1t, Option.map_some']
    have : ("Sample." ++ "dateTimeStart" : String) = "Sample.dateTimeStart" := rfl
    rw [this] at hch
    rw [DataFrame.cell?, hch, hc3]
    show ((F2 (F1 tc)).vals.getD i .cnull) = v
    have hF2v : F2 (F1 tc) = F1 tc := by
      simp only [hF2]
      rw [if_neg (by rw [hF1n, htcn]; decide)]
    rw [hF2v]
    simp only [hF1]
    rw [if_pos htcn]
    show ((List.range tc.vals.length).map _).getD i .cnull = v
    rw [getD_map_range _ i _ (by rw [htlen]; exact hi)]
    have hs0' : tc.vals.getD i .cnull = .cnull := by
      rw [DataFrame.cell?, htc] at hs0
      exact hs0
    rw [hs0']
    rw [DataFrame.cell?, hdc] at hv
    exact hv
  · have hch : (df3.addPrefixTo "Sample.").col? ("Sample." ++ "dateTimeEnd")
        = (df3.col? "dateTimeEnd").map (fun c => { c with name := "Sample." ++ c.name }) :=
      col?_addPrefixTo df3 "Sample." "dateTimeEnd"
    have hc3 : df3.col? "dateTimeEnd" = some (F2 ec) := by
      rw [hdf3, col?_filter_not_mem df2.cols ["dateTime"] _ (by decide), hdf2,
        col?_map_pres df1.cols F2 hF2n, hc1e, Option.map_some']
    have : ("Sample." ++ "dateTimeEnd" : String) = "Sample.dateTimeEnd" := rfl
    rw [this] at hch
    rw [DataFrame.cell?, hch, hc3]
    show ((F2 ec).vals.getD i .cnull) = v
    simp only [hF2]
    rw [if_pos hecn]
    show ((List.range ec.vals.length).map _).getD i .cnull = v
    rw [getD_map_range _ i _ (by rw [helen]; exact hi)]
    have he0' : ec.vals.getD i .cnull = .cnull := by
      rw [DataFrame.cell?, hec] at he0
      exact he0
    rw [he0']
    rw [DataFrame.cell?, hdc] at hv
    exact hv

/-- Witness for C7 at a concrete one-row sample table. -/
theorem C7_witness :
    ∃ out, parse_sample id sampleDf7 = .ok out ∧
      "Sample.dateTime" ∉ out.names ∧
      (out.cell? "Sample.dateTimeStart" 0).getD .cnull = .cts ⟨2021, 1, 1, 0, 0, 0, 0⟩ ∧
      (out.cell? "Sample.dateTimeEnd" 0).getD .cnull = .cts ⟨2021, 1, 1, 0, 0, 0, 0⟩ :=
  C7_grab_sample_window id sampleDf7 0 (.cts ⟨2021, 1, 1, 0, 0, 0, 0⟩)
    (by decide) (by decide)
    (by intro j hj
        have h1 : sampleDf7.nrows = 1 := rfl
        rw [h1] at hj
        have h0 : j = 0 := by omega
        subst h0
        exact ⟨"A", by decide, by decide⟩)
    (by decide) (by decide) (by decide) (by decide) (by decide) (by decide)

/-! ## C6: sample site explosion in `__parse_sample` -/

/-- **C6.** A sample row whose site identifier field holds `"A; B"`
produces two rows after canonicalization, one with site id `"A"` and one
with `"B"` (distributed over the original row and the appended copy in the
arbitrary order Python's string set hands them out), with all other fields
identical to the source row; every other row keeps its single site id. -/
theorem C6_sample_site_explosion (pick : List String → List String)
    (df : DataFrame) (i : Nat)
    (hrect : df.Rect) (hi : i < df.nrows)
    (hdt : "dateTime" ∈ df.names) (hst : "dateTimeStart" ∈ df.names)
    (hen : "dateTimeEnd" ∈ df.names)
    (hsid : ∀ j, j < df.nrows → j ≠ i →
      ∃ sj, (df.cell? "siteID" j).getD .cnull = .cstr sj ∧ ';' ∉ sj.data)
    (hrow : (df.cell? "siteID" i).getD .cnull = .cstr "A; B")
    (hs0 : (df.cell? "dateTimeStart" i).getD .cnull ≠ .cnull)
    (he0 : (df.cell? "dateTimeEnd" i).getD .cnull ≠ .cnull)
    (hpick : pick ["A", "B"] = ["A", "B"] ∨ pick ["A", "B"] = ["B", "A"]) :
    ∃ out x y, parse_sample pick df = .ok out ∧
      ((x = "A" ∧ y = "B") ∨ (x = "B" ∧ y = "A")) ∧
      (∀ c ∈ out.cols, c.vals.length = df.nrows + 1) ∧
      (out.cell? "Sample.siteID" i).getD .cnull = .cstr x ∧
      (out.cell? "Sample.siteID" df.nrows).getD .cnull = .cstr y ∧
      (∀ nm, nm ∈ df.names → nm ≠ "siteID" → nm ≠ "dateTime" →
        (out.cell? ("Sample." ++ nm) i).getD .cnull = (df.cell? nm i).getD .cnull ∧
        (out.cell? ("Sample." ++ nm) df.nrows).getD .cnull
          = (df.cell? nm i).getD .cnull) ∧
      (∀ j, j < df.nrows → j ≠ i →
        (out.cell? "Sample.siteID" j).getD .cnull
          = (df.cell? "siteID" j).getD .cnull) := by
  obtain ⟨x, y, hxy, hids⟩ :
      ∃ x y, ((x = "A" ∧ y = "B") ∨ (x = "B" ∧ y = "A")) ∧
        pick ["A", "B"] = [x, y] := by
    rcases hpick with h | h
    · exact ⟨"A", "B", Or.inl ⟨rfl, rfl⟩, h⟩
    · exact ⟨"B", "A", Or.inr ⟨rfl, rfl⟩, h⟩
  obtain ⟨tc, htc, htcm, htcn⟩ := col?_spec df "dateTimeStart" hst
  obtain ⟨ec, hec, hecm, hecn⟩ := col?_spec df "dateTimeEnd" hen
  obtain ⟨dc, hdc, hdcm, hdcn⟩ := col?_spec df "dateTime" hdt
  -- the siteID column exists because row i reads as a string
  obtain ⟨sc, hsc, hscm, hscn⟩ :
      ∃ sc, df.col? "siteID" = some sc ∧ sc ∈ df.cols ∧ sc.name = "siteID" := by
    cases h : df.col? "siteID" with
    | none =>
      rw [DataFrame.cell?, h] at hrow
      simp only [Option.map_none', Option.getD_none] at hrow
      exact Cell.noConfusion hrow
    | some sc =>
      exact ⟨sc, rfl, List.mem_of_find?_eq_some h, by simpa using List.find?_some h⟩
  have htlen : tc.vals.length = df.nrows := hrect tc htcm
  have helen : ec.vals.length = df.nrows := hrect ec hecm
  have hdlen : dc.vals.length = df.nrows := hrect dc hdcm
  have hslen : sc.vals.length = df.nrows := hrect sc hscm
  have hsval : sc.vals.getD i .cnull = .cstr "A; B" := by
    rw [DataFrame.cell?, hsc] at hrow; exact hrow
  have htval : tc.vals.getD i .cnull ≠ .cnull := by
    rw [DataFrame.cell?, htc] at hs0; exact hs0
  have heval : ec.vals.getD i .cnull ≠ .cnull := by
    rw [DataFrame.cell?, hec] at he0; exact he0
  -- one loop iteration acts, the rest are no-ops
  have hstepi : ∀ d, sampleStep pick df d i = .ok (explodeRow d i [x, y]) := by
    intro d
    unfold sampleStep
    rw [hrow]
    show (if ';' ∈ "A; B".data then
        Except.ok (explodeRow d i (pick ((splitOnSep ';' "A; B".data).map
          (fun part => String.mk (pyStrip part)))))
      else Except.ok d) = _
    rw [if_pos (by decide)]
    have hsp : (splitOnSep ';' "A; B".data).map (fun part => String.mk (pyStrip part))
        = ["A", "B"] := by decide
    rw [hsp, hids]
  have hfold : (List.range df.nrows).foldlM (sampleStep pick df) df
      = .ok (explodeRow df i [x, y]) := by
    rw [range_split i df.nrows hi]
    apply foldlM_single (sampleStep pick df) i _ _ (fun d => explodeRow d i [x, y]) df
    · intro j hj d
      have hj2 : j < df.nrows ∧ j ≠ i := by
        rcases List.mem_append.mp hj with h | h
        · have := List.mem_range.mp h; omega
        · have := List.mem_range'_1.mp h; omega
      obtain ⟨sj, hsj, hsemi⟩ := hsid j hj2.1 hj2.2
      exact sampleStep_noop pick df d j sj hsj hsemi
    · exact hstepi
  set S : Col → Col := fun c =>
    if c.name = "siteID" then { c with vals := c.vals.set i (.cstr x) } else c with hS
  set A : Col → Col := fun c =>
    { c with vals := c.vals ++
        [if c.name = "siteID" then .cstr y else c.vals.getD i .cnull] } with hA
  have hSn : ∀ c, (S c).name = c.name := by
    intro c
    simp only [hS]
    by_cases h : c.name = "siteID" <;> simp [h]
  have hAn : ∀ c, (A c).name = c.name := by
    intro c
    simp only [hA]
  have hexp : explodeRow df i [x, y] = ⟨(df.cols.map S).map A⟩ := rfl
  set dfE : DataFrame := ⟨(df.cols.map S).map A⟩ with hdfE
  have hcolE : ∀ nm, dfE.col? nm = (df.col? nm).map (fun c => A (S c)) := by
    intro nm
    rw [hdfE]
    show DataFrame.col? ⟨(df.cols.map S).map A⟩ nm = _
    rw [col?_map_pres _ A hAn]
    show (DataFrame.col? ⟨df.cols.map S⟩ nm).map A = _
    rw [col?_map_pres _ S hSn, Option.map_map]
    rfl
  -- the exploded forms of the four relevant columns
  have hStc : S tc = tc := by
    simp only [hS]; rw [if_neg (by rw [htcn]; decide)]
  have hSec : S ec = ec := by
    simp only [hS]; rw [if_neg (by rw [hecn]; decide)]
  have hSdc : S dc = dc := by
    simp only [hS]; rw [if_neg (by rw [hdcn]; decide)]
  have hAtc : A tc = { tc with vals := tc.vals ++ [tc.vals.getD i .cnull] } := by
    simp only [hA]; rw [if_neg (by rw [htcn]; decide)]
  have hAec : A ec = { ec with vals := ec.vals ++ [ec.vals.getD i .cnull] } := by
    simp only [hA]; rw [if_neg (by rw [hecn]; decide)]
  have hAdc : A dc = { dc with vals := dc.vals ++ [dc.vals.getD i .cnull] } := by
    simp only [hA]; rw [if_neg (by rw [hdcn]; decide)]
  have hASsc : A (S sc) = { sc with vals := sc.vals.set i (.cstr x) ++ [.cstr y] } := by
    simp only [hS]
    rw [if_pos hscn]
    simp only [hA]
    rw [if_pos (show ({ sc with vals := sc.vals.set i (.cstr x) } : Col).name = "siteID" from hscn)]
  have hcEt : dfE.col? "dateTimeStart" = some (A tc) := by
    rw [hcolE, htc, Option.map_some', hStc]
  have hcEe : dfE.col? "dateTimeEnd" = some (A ec) := by
    rw [hcolE, hec, Option.map_some', hSec]
  have hcEd : dfE.col? "dateTime" = some (A dc) := by
    rw [hcolE, hdc, Option.map_some', hSdc]
  -- the two fills
  have hfill1 := fillnaFrom_spec dfE "dateTimeStart" "dateTime" (A tc) (A dc) hcEt hcEd
  set F1 : Col → Col := fun c =>
    if c.name = "dateTimeStart" then
      { c with vals := (List.range (A tc).vals.length).map (fun k =>
          match (A tc).vals.getD k .cnull with
          | .cnull => (A dc).vals.getD k .cnull
          | v => v) }
    else c with hF1
  have hF1n : ∀ c, (F1 c).name = c.name := by
    intro c
    simp only [hF1]
    by_cases h : c.name = "dateTimeStart" <;> simp [h]
  set df1 : DataFrame := ⟨dfE.cols.map F1⟩ with hdf1
  have hc1e : df1.col? "dateTimeEnd" = some (A ec) := by
    rw [hdf1, col?_map_pres dfE.cols F1 hF1n, hcEe, Option.map_some']
    congr 1
    simp only [hF1]
    rw [if_neg (by rw [hAn, hecn]; decide)]
  have hc1d : df1.col? "dateTime" = some (A dc) := by
    rw [hdf1, col?_map_pres dfE.cols F1 hF1n, hcEd, Option.map_some']
    congr 1
    simp only [hF1]
    rw [if_neg (by rw [hAn, hdcn]; decide)]
  have hfill2 := fillnaFrom_spec df1 "dateTimeEnd" "dateTime" (A ec) (A dc) hc1e hc1d
  set F2 : Col → Col := fun c =>
    if c.name = "dateTimeEnd" then
      { c with vals := (List.range (A ec).vals.length).map (fun k =>
          match (A ec).vals.getD k .cnull with
          | .cnull => (A dc).vals.getD k .cnull
          | v => v) }
    else c with hF2
  have hF2n : ∀ c, (F2 c).name = c.name := by
    intro c
    simp only [hF2]
    by_cases h : c.name = "dateTimeEnd" <;> simp [h]
  set df2 : DataFrame := ⟨df1.cols.map F2⟩ with hdf2
  have hnames2 : df2.names = df.names := by
    rw [hdf2, names_map_pres _ _ hF2n, hdf1, names_map_pres _ _ hF1n, hdfE,
      names_map_pres _ _ hAn, names_map_pres _ _ hSn]
  have hdrop := dropCols_ok df2 ["dateTime"] (by
    intro n hn
    rw [hnames2]
    simp at hn
    rw [hn]
    exact hdt)
  set df3 : DataFrame := ⟨df2.cols.filter (fun c => c.name ∉ ["dateTime"])⟩ with hdf3
  have hrun : parse_sample pick df = .ok (df3.addPrefixTo "Sample.") := by
    simp only [parse_sample]
    rw [hfold, hexp]
    simp only [except_bind_ok]
    rw [hfill1]
    simp only [except_bind_ok]
    rw [hfill2]
    simp only [except_bind_ok]
    rw [hdrop]
    simp only [except_bind_ok]
    rfl
  -- column lengths
  have hlen3 : ∀ c ∈ df3.cols, c.vals.length = df.nrows + 1 := by
    intro c hc
    rw [hdf3] at hc
    have hc2 : c ∈ df2.cols := List.mem_of_mem_filter hc
    rw [hdf2] at hc2
    obtain ⟨c1, hc1, rfl⟩ := List.mem_map.mp hc2
    rw [hdf1] at hc1
    obtain ⟨cE, hcE, rfl⟩ := List.mem_map.mp hc1
    rw [hdfE] at hcE
    obtain ⟨cS, hcS, rfl⟩ := List.mem_map.mp hcE
    obtain ⟨c0, hc0, rfl⟩ := List.mem_map.mp hcS
    have h0 : c0.vals.length = df.nrows := hrect c0 hc0
    have hSlen : (S c0).vals.length = df.nrows := by
      simp only [hS]
      by_cases h : c0.name = "siteID" <;> simp [h, h0]
    have hAlen : (A (S c0)).vals.length = df.nrows + 1 := by
      simp only [hA]
      simp [hSlen]
    have hF1len : (F1 (A (S c0))).vals.length = df.nrows + 1 := by
      simp only [hF1]
      by_cases h : (A (S c0)).name = "dateTimeStart"
      · rw [if_pos h]
        show ((List.range (A tc).vals.length).map _).length = _
        rw [List.length_map, List.length_range, hAtc]
        show (tc.vals ++ _).length = _
        simp [htlen]
      · rw [if_neg h]
        exact hAlen
    simp only [hF2]
    by_cases h : (F1 (A (S c0))).name = "dateTimeEnd"
    · rw [if_pos h]
      show ((List.range (A ec).vals.length).map _).length = _
      rw [List.length_map, List.length_range, hAec]
      show (ec.vals ++ _).length = _
      simp [helen]
    · rw [if_neg h]
      exact hF1len
  -- the canonicalized siteID column
  have hc3s : df3.col? "siteID" = some (F2 (F1 (A (S sc)))) := by
    rw [hdf3, col?_filter_not_mem df2.cols ["dateTime"] _ (by decide), hdf2,
      col?_map_pres df1.cols F2 hF2n, hdf1, col?_map_pres dfE.cols F1 hF1n,
      hcolE, hsc]
    rfl
  have hs3v : F2 (F1 (A (S sc))) = { sc with vals := sc.vals.set i (.cstr x) ++ [.cstr y] } := by
    have h1 : F1 (A (S sc)) = A (S sc) := by
      simp only [hF1]
      rw [if_neg (by rw [hAn, hSn, hscn]; decide)]
    have h2 : F2 (A (S sc)) = A (S sc) := by
      simp only [hF2]
      rw [if_neg (by rw [hAn, hSn, hscn]; decide)]
    rw [h1, h2, hASsc]
  have hcops : (df3.addPrefixTo "Sample.").col? "Sample.siteID"
      = some (Col.mk ("Sample." ++ sc.name) sc.dtype
          (sc.vals.set i (.cstr x) ++ [.cstr y])) := by
    have h0 : ("Sample." ++ "siteID" : String) = "Sample.siteID" := rfl
    rw [← h0, col?_addPrefixTo, hc3s, Option.map_some', hs3v]
  refine ⟨df3.addPrefixTo "Sample.", x, y, hrun, hxy, ?_, ?_, ?_, ?_, ?_⟩
  · -- lengths, after the prefix
    intro c hc
    obtain ⟨c3, hc3, rfl⟩ := List.mem_map.mp hc
    exact hlen3 c3 hc3
  · -- site id of the original row
    rw [DataFrame.cell?, hcops, Option.map_some', Option.getD_some]
    show ((sc.vals.set i (Cell.cstr x) ++ [Cell.cstr y]).getD i Cell.cnull) = Cell.cstr x
    rw [getD_append_lt _ _ _ i (by rw [List.length_set, hslen]; exact hi)]
    exact getD_set_self sc.vals i _ _ (by rw [hslen]; exact hi)
  · -- site id of the appended row
    rw [DataFrame.cell?, hcops, Option.map_some', Option.getD_some]
    show ((sc.vals.set i (Cell.cstr x) ++ [Cell.cstr y]).getD df.nrows Cell.cnull) = Cell.cstr y
    have hl : (sc.vals.set i (Cell.cstr x)).length = df.nrows := by
      rw [List.length_set, hslen]
    rw [← hl, getD_append_len]
  · -- all other fields of both rows
    intro nm hnm hnm1 hnm2
    obtain ⟨c, hcq, hcm, hcn⟩ := col?_spec df nm hnm
    have hclen : c.vals.length = df.nrows := hrect c hcm
    have hSc : S c = c := by
      simp only [hS]
      rw [if_neg (by rw [hcn]; exact hnm1)]
    have hc3 : df3.col? nm = some (F2 (F1 (A c))) := by
      rw [hdf3, col?_filter_not_mem df2.cols ["dateTime"] _ (by simpa using hnm2), hdf2,
        col?_map_pres df1.cols F2 hF2n, hdf1, col?_map_pres dfE.cols F1 hF1n,
        hcolE, hcq, Option.map_some', Option.map_some', Option.map_some', hSc]
    have hcop : (df3.addPrefixTo "Sample.").col? ("Sample." ++ nm)
        = some ((fun c => { c with name := "Sample." ++ c.name }) (F2 (F1 (A c)))) := by
      rw [col?_addPrefixTo, hc3, Option.map_some']
    have hcval : (df.cell? nm i).getD .cnull = c.vals.getD i .cnull := by
      rw [DataFrame.cell?, hcq]
      rfl
    have hcellk : ∀ k, ((df3.addPrefixTo "Sample.").cell? ("Sample." ++ nm) k).getD .cnull
        = (F2 (F1 (A c))).vals.getD k .cnull := by
      intro k
      rw [DataFrame.cell?, hcop, Option.map_some', Option.getD_some]
    rw [hcval, hcellk i, hcellk df.nrows]
    by_cases h1 : nm = "dateTimeStart"
    · -- the fill rewrites this column but keeps its non-null values
      subst h1
      have hceq : c = tc := by
        rw [← Option.some_inj, ← hcq, ← htc]
      rw [hceq]
      have hF1c : F1 (A tc) = { (A tc) with
          vals := (List.range (A tc).vals.length).map (fun k =>
            match (A tc).vals.getD k .cnull with
            | .cnull => (A dc).vals.getD k .cnull
            | v => v) } := by
        simp only [hF1]
        rw [if_pos (by rw [hAn, htcn])]
      have hF2c : ∀ z : Col, z.name = "dateTimeStart" → F2 z = z := by
        intro z hz
        simp only [hF2]
        rw [if_neg (by rw [hz]; decide)]
      rw [hF1c, hF2c _ (by rw [hAn, htcn])]
      have hAtl : (A tc).vals.length = df.nrows + 1 := by
        rw [hAtc]
        show (tc.vals ++ _).length = _
        simp [htlen]
      have hvI : (A tc).vals.getD i Cell.cnull = tc.vals.getD i Cell.cnull := by
        rw [hAtc]
        show (tc.vals ++ [tc.vals.getD i Cell.cnull]).getD i Cell.cnull = _
        exact getD_append_lt _ _ _ i (by rw [htlen]; exact hi)
      have hvN : (A tc).vals.getD df.nrows Cell.cnull = tc.vals.getD i Cell.cnull := by
        rw [hAtc]
        show (tc.vals ++ [tc.vals.getD i Cell.cnull]).getD df.nrows Cell.cnull = _
        rw [← htlen, getD_append_len]
      show ((List.range (A tc).vals.length).map (fun k =>
          match (A tc).vals.getD k Cell.cnull with
          | Cell.cnull => (A dc).vals.getD k Cell.cnull
          | v => v)).getD i Cell.cnull = tc.vals.getD i Cell.cnull ∧
        ((List.range (A tc).vals.length).map (fun k =>
          match (A tc).vals.getD k Cell.cnull with
          | Cell.cnull => (A dc).vals.getD k Cell.cnull
          | v => v)).getD df.nrows Cell.cnull = tc.vals.getD i Cell.cnull
      constructor
      · rw [fill_vals_getD _ _ i (by omega) (by rw [hvI]; exact htval)]
        exact hvI
      · rw [fill_vals_getD _ _ df.nrows (by omega) (by rw [hvN]; exact htval)]
        exact hvN
    by_cases h2 : nm = "dateTimeEnd"
    · subst h2
      have hceq : c = ec := by
        rw [← Option.some_inj, ← hcq, ← hec]
      rw [hceq]
      have hF1c : F1 (A ec) = A ec := by
        simp only [hF1]
        rw [if_neg (by rw [hAn, hecn]; decide)]
      have hF2c : F2 (A ec) = { (A ec) with
          vals := (List.range (A ec).vals.length).map (fun k =>
            match (A ec).vals.getD k .cnull with
            | .cnull => (A dc).vals.getD k .cnull
            | v => v) } := by
        simp only [hF2]
        rw [if_pos (by rw [hAn, hecn])]
      rw [hF1c, hF2c]
      have hAel : (A ec).vals.length = df.nrows + 1 := by
        rw [hAec]
        show (ec.vals ++ _).length = _
        simp [helen]
      have hvI : (A ec).vals.getD i Cell.cnull = ec.vals.getD i Cell.cnull := by
        rw [hAec]
        show (ec.vals ++ [ec.vals.getD i Cell.cnull]).getD i Cell.cnull = _
        exact getD_append_lt _ _ _ i (by rw [helen]; exact hi)
      have hvN : (A ec).vals.getD df.nrows Cell.cnull = ec.vals.getD i Cell.cnull := by
        rw [hAec]
        show (ec.vals ++ [ec.vals.getD i Cell.cnull]).getD df.nrows Cell.cnull = _
        rw [← helen, getD_append_len]
      show ((List.range (A ec).vals.length).map (fun k =>
          match (A ec).vals.getD k Cell.cnull with
          | Cell.cnull => (A dc).vals.getD k Cell.cnull
          | v => v)).getD i Cell.cnull = ec.vals.getD i Cell.cnull ∧
        ((List.range (A ec).vals.length).map (fun k =>
          match (A ec).vals.getD k Cell.cnull with
          | Cell.cnull => (A dc).vals.getD k Cell.cnull
          | v => v)).getD df.nrows Cell.cnull = ec.vals.getD i Cell.cnull
      constructor
      · rw [fill_vals_getD _ _ i (by omega) (by rw [hvI]; exact heval)]
        exact hvI
      · rw [fill_vals_getD _ _ df.nrows (by omega) (by rw [hvN]; exact heval)]
        exact hvN
    · -- untouched columns
      have hAc : A c = { c with vals := c.vals ++ [c.vals.getD i .cnull] } := by
        simp only [hA]
        rw [if_neg (by rw [hcn]; exact hnm1)]
      have hF1c : F1 (A c) = A c := by
        simp only [hF1]
        rw [if_neg (by rw [hAn, hcn]; exact h1)]
      have hF2c : F2 (A c) = A c := by
        simp only [hF2]
        rw [if_neg (by rw [hAn, hcn]; exact h2)]
      rw [hF1c, hF2c, hAc]
      constructor
      · show (c.vals ++ _).getD i .cnull = _
        rw [getD_append_lt _ _ _ i (by rw [hclen]; exact hi)]
      · show (c.vals ++ [c.vals.getD i .cnull]).getD df.nrows .cnull = _
        rw [← hclen, getD_append_len]
  · -- other rows keep their site ids
    intro j hj hji
    simp only [DataFrame.cell?]
    rw [hcops, hsc]
    simp only [Option.map_some', Option.getD_some]
    show ((sc.vals.set i (Cell.cstr x) ++ [Cell.cstr y]).getD j Cell.cnull) = sc.vals.getD j Cell.cnull
    rw [getD_append_lt _ _ _ j (by rw [List.length_set, hslen]; exact hj)]
    exact getD_set_ne sc.vals i j _ _ (fun h => hji h.symm)

/-- Witness for C6 at a concrete two-row sample table. -/
theorem C6_witness :
    ∃ out x y, parse_sample id sampleDf6 = .ok out ∧
      ((x = "A" ∧ y = "B") ∨ (x = "B" ∧ y = "A")) ∧
      (∀ c ∈ out.cols, c.vals.length = sampleDf6.nrows + 1) ∧
      (out.cell? "Sample.siteID" 0).getD .cnull = .cstr x ∧
      (out.cell? "Sample.siteID" sampleDf6.nrows).getD .cnull = .cstr y ∧
      (∀ nm, nm ∈ sampleDf6.names → nm ≠ "siteID" → nm ≠ "dateTime" →
        (out.cell? ("Sample." ++ nm) 0).getD .cnull
          = (sampleDf6.cell? nm 0).getD .cnull ∧
        (out.cell? ("Sample." ++ nm) sampleDf6.nrows).getD .cnull
          = (sampleDf6.cell? nm 0).getD .cnull) ∧
      (∀ j, j < sampleDf6.nrows → j ≠ 0 →
        (out.cell? "Sample.siteID" j).getD .cnull
          = (sampleDf6.cell? "siteID" j).getD .cnull) :=
  C6_sample_site_explosion id sampleDf6 0 (by decide) (by decide)
    (by decide) (by decide) (by decide)
    (by intro j hj hj0
        have h2 : sampleDf6.nrows = 2 := rfl
        rw [h2] at hj
        have h1 : j = 1 := by omega
        subst h1
        exact ⟨"C", by decide, by decide⟩)
    (by decide) (by decide) (by decide) (Or.inl rfl)

/-! ## C5: the widen reshape -/

theorem widenName_eq (df : DataFrame) (j : Nat) :
    widenName df ["type", "unit"] "value" j
      = comboName (cellStr ((df.cell? "type" j).getD .cnull),
          cellStr ((df.cell? "unit" j).getD .cnull)) := by
  unfold widenName comboName qualText
  simp only [List.map_cons, List.map_nil]
  rw [if_neg (by decide), if_neg (by decide)]

/-- **C5 (amended).** Widening a table with feature `value` and qualifiers
`type`, `unit` whose rows carry exactly two distinct `(type, unit)`
combinations yields exactly the two generated columns named by dot-joining
the substituted qualifier values with the feature name — provided the two
substituted composite names are themselves distinct and fresh (the `/`→`-`
substitution can identify two distinct combinations, see the
counterexample) — keeps one row per original row, and removes the `value`,
`type` and `unit` source columns. -/
theorem C5_widen_two_columns (df : DataFrame) (c1 c2 : String × String)
    (hrect : df.Rect)
    (hvm : "value" ∈ df.names) (htm : "type" ∈ df.names) (hum : "unit" ∈ df.names)
    (hcombo : firstDedup (typeUnitCombos df) = [c1, c2])
    (hne : comboName c1 ≠ comboName c2)
    (hf1 : comboName c1 ∉ df.names) (hf2 : comboName c2 ∉ df.names)
    (fc0 : Col) (defc : Cell)
    (hfc : df.col? "value" = some fc0) (hinit : initCell fc0.dtype = .ok defc) :
    ∃ out, widen df ["value"] ["type", "unit"] = .ok out ∧
      out.names = df.names.filter
          (fun n => n ∉ (["value", "type", "unit"] : List String))
        ++ [comboName c1, comboName c2] ∧
      ∀ c ∈ out.cols, c.vals.length = df.nrows := by
  have hvn : fc0.name = "value" := by simpa using List.find?_some hfc
  have hmapeq : (List.range df.nrows).map (widenName df ["type", "unit"] "value")
      = (typeUnitCombos df).map comboName := by
    unfold typeUnitCombos
    rw [List.map_map]
    exact List.map_congr_left (fun j _ => widenName_eq df j)
  have hcm : ∀ x ∈ typeUnitCombos df, x = c1 ∨ x = c2 := by
    intro x hx
    have h2 : x ∈ firstDedup (typeUnitCombos df) := by
      unfold firstDedup
      exact (foldl_dedup_mem _ _ _).mpr (Or.inr hx)
    rw [hcombo] at h2
    simpa using h2
  have hinj : ∀ a ∈ typeUnitCombos df, ∀ b ∈ typeUnitCombos df,
      comboName a = comboName b → a = b := by
    intro a ha b hb hab
    rcases hcm a ha with rfl | rfl <;> rcases hcm b hb with rfl | rfl
    · rfl
    · exact absurd hab hne
    · exact absurd hab.symm hne
    · rfl
  have hfresh : ∀ j ∈ List.range df.nrows,
      widenName df ["type", "unit"] "value" j ∉ df.names := by
    intro j hj
    rw [widenName_eq df j]
    have hmem : (cellStr ((df.cell? "type" j).getD .cnull),
        cellStr ((df.cell? "unit" j).getD .cnull)) ∈ typeUnitCombos df :=
      List.mem_map_of_mem _ hj
    rcases hcm _ hmem with h | h <;> rw [h]
    · exact hf1
    · exact hf2
  obtain ⟨acc', hrun, hnames, hlen, _⟩ :=
    widen_fold_inv df ["type", "unit"] fc0 defc hfc hvn hvm hinit
      (List.range df.nrows) df [] hfresh (by simp) hrect hfc
  have hdn : ((List.range df.nrows).map (widenName df ["type", "unit"] "value")).foldl
      (fun a b => if b ∈ a then a else a ++ [b]) []
      = [comboName c1, comboName c2] := by
    rw [hmapeq]
    show ((typeUnitCombos df).map comboName).foldl
        (fun a b => if b ∈ a then a else a ++ [b])
        (([] : List (String × String)).map comboName)
      = [comboName c1, comboName c2]
    rw [foldl_dedup_map comboName (typeUnitCombos df) hinj (typeUnitCombos df) []
      (fun a ha => ha) (by simp)]
    show (firstDedup (typeUnitCombos df)).map comboName = _
    rw [hcombo]
    rfl
  have hLsub : ∀ n ∈ (["value", "type", "unit"] : List String), n ∈ acc'.names := by
    intro n hn
    rw [hnames]
    apply List.mem_append.mpr
    left
    simp at hn
    rcases hn with rfl | rfl | rfl
    · exact hvm
    · exact htm
    · exact hum
  have hdrop := dropCols_ok acc' ["value", "type", "unit"] hLsub
  refine ⟨⟨acc'.cols.filter
      (fun c => c.name ∉ (["value", "type", "unit"] : List String))⟩, ?_, ?_, ?_⟩
  · show widen df ["value"] ["type", "unit"] = _
    have hrunF : (["value"] : List String).foldlM
        (fun acc feature => (List.range df.nrows).foldlM
          (fun acc2 i => widenStep df ["type", "unit"] feature acc2 i) acc) df
        = .ok acc' := by
      rw [List.foldlM_cons]
      show ((List.range df.nrows).foldlM
          (fun acc2 i => widenStep df ["type", "unit"] "value" acc2 i) df >>=
          fun b => List.foldlM _ b []) = _
      rw [hrun]
      rfl
    simp only [widen]
    rw [hrunF]
    simp only [except_bind_ok]
    show acc'.dropCols ["value", "type", "unit"] = _
    rw [hdrop]
  · show DataFrame.names ⟨acc'.cols.filter _⟩ = _
    have hfn : DataFrame.names ⟨acc'.cols.filter
        (fun c => c.name ∉ (["value", "type", "unit"] : List String))⟩
        = acc'.names.filter (fun n => n ∉ (["value", "type", "unit"] : List String)) := by
      show (acc'.cols.filter _).map Col.name = (acc'.cols.map Col.name).filter _
      rw [List.filter_map]
      rfl
    rw [hfn, hnames, hdn, List.filter_append]
    congr 1
    have hn1 : comboName c1 ∉ (["value", "type", "unit"] : List String) := by
      intro h
      apply hf1
      simp at h
      rcases h with h | h | h <;> rw [h]
      · exact hvm
      · exact htm
      · exact hum
    have hn2 : comboName c2 ∉ (["value", "type", "unit"] : List String) := by
      intro h
      apply hf2
      simp at h
      rcases h with h | h | h <;> rw [h]
      · exact hvm
      · exact htm
      · exact hum
    rw [List.filter_cons, if_pos (by simpa using hn1),
      List.filter_cons, if_pos (by simpa using hn2)]
    rfl
  · intro c hc
    exact hlen c (List.mem_of_mem_filter hc)

/-- **C5 (counterexample to the claim as stated).** The rows of
`collideDf` carry exactly two distinct `(type, unit)` combinations —
`("a/b", "u")` and `("a-b", "u")` — yet widening generates exactly one new
column, because the `/`→`-` substitution maps both combinations to the same
composite name `a-b.u.value`. -/
theorem C5_counterexample :
    firstDedup (typeUnitCombos collideDf) = [("a/b", "u"), ("a-b", "u")] ∧
    ("a/b", "u") ≠ ("a-b", "u") ∧
    (widen collideDf ["value"] ["type", "unit"]).map DataFrame.names
      = .ok ["a-b.u.value"] := by
  refine ⟨by decide, by decide, by decide⟩

/-- Witness for the amended C5 at a concrete three-row table with the
combinations `("covN1", "gc/ml")` and `("covN2", "gc-l")`. -/
theorem C5_witness :
    ∃ out, widen wideDf ["value"] ["type", "unit"] = .ok out ∧
      out.names = wideDf.names.filter
          (fun n => n ∉ (["value", "type", "unit"] : List String))
        ++ [comboName ("covN1", "gc/ml"), comboName ("covN2", "gc-l")] ∧
      ∀ c ∈ out.cols, c.vals.length = wideDf.nrows :=
  C5_widen_two_columns wideDf ("covN1", "gc/ml") ("covN2", "gc-l")
    (by decide) (by decide) (by decide) (by decide) (by decide) (by decide)
    (by decide) (by decide)
    ⟨"value", .float64, [.cnum 1, .cnum 2, .cnum 3]⟩ .cnull
    (by decide) (by decide)

/-! ## C8: unknown-token normalization on the text branch -/

theorem wsp_char (c : Char) (h : wsp c = true) :
    c = ' ' ∨ c = '\t' ∨ c = '\r' ∨ c = '\n' := by
  unfold wsp at h
  simp at h
  tauto

theorem takeWhile_all {α : Type} (p : α → Bool) (l : List α)
    (h : ∀ x ∈ l, p x = true) : l.takeWhile p = l := by
  induction l with
  | nil => rfl
  | cons a l ih =>
    rw [List.takeWhile_cons, h a (by simp), if_pos rfl,
      ih (fun x hx => h x (by simp [hx]))]

theorem all_drop {α : Type} (p : α → Bool) (n : Nat) (l : List α)
    (h : ∀ x ∈ l, p x = true) : ∀ x ∈ l.drop n, p x = true :=
  fun x hx => h x (List.mem_of_mem_drop hx)

theorem startsLCI_length (p cs : List Char) (h : startsLCI p cs = true) :
    p.length ≤ cs.length := by
  induction p generalizing cs with
  | nil => simp
  | cons a p ih =>
    cases cs with
    | nil => exact absurd h (by simp [startsLCI])
    | cons c cs =>
      have h2 := h
      unfold startsLCI at h2
      rw [Bool.and_eq_true] at h2
      have := ih cs h2.2
      simp only [List.length_cons]
      omega

theorem clsRun_cons_pos (c : Char) (t : List Char) (h : isCls c = true) :
    clsRun (c :: t) = clsRun t + 1 := by
  show (if isCls c then clsRun t + 1 else 0) = clsRun t + 1
  rw [if_pos h]

theorem clsRun_cons_neg (c : Char) (t : List Char) (h : isCls c = false) :
    clsRun (c :: t) = 0 := by
  show (if isCls c then clsRun t + 1 else 0) = 0
  simp [h]

theorem clsRun_le (l : List Char) : clsRun l ≤ l.length := by
  induction l with
  | nil => simp [clsRun]
  | cons c l ih =>
    by_cases h : isCls c = true
    · rw [clsRun_cons_pos c l h]
      simp only [List.length_cons]
      omega
    · rw [clsRun_cons_neg c l (by simpa using h)]
      simp

theorem clsRun_takeWhile (l : List Char) :
    clsRun l = (l.takeWhile isCls).length := by
  induction l with
  | nil => rfl
  | cons c t ih =>
    rw [List.takeWhile_cons]
    by_cases hc : isCls c = true
    · rw [clsRun_cons_pos c t hc, if_pos hc]
      simp [ih]
    · rw [clsRun_cons_neg c t (by simpa using hc), if_neg hc]
      rfl

theorem clsThenOptDotEnd_spec (l : List Char) (h : clsThenOptDotEnd l = true) :
    1 ≤ clsRun l ∧ (l.drop (clsRun l) = [] ∨ l.drop (clsRun l) = ['.']) := by
  induction l with
  | nil => exact absurd h (by decide)
  | cons c t ih =>
    cases t with
    | nil =>
      have hc : isCls c = true := h
      have h1 : clsRun [c] = 1 := by
        rw [clsRun_cons_pos c [] hc]
        rfl
      rw [h1]
      exact ⟨Nat.le_refl 1, Or.inl rfl⟩
    | cons d t2 =>
      have h2 := h
      unfold clsThenOptDotEnd at h2
      rw [Bool.and_eq_true, Bool.or_eq_true] at h2
      obtain ⟨hc, hbody⟩ := h2
      rcases hbody with hrec | hdot
      · obtain ⟨hk, hdrop⟩ := ih hrec
        rw [clsRun_cons_pos c _ hc]
        refine ⟨by omega, ?_⟩
        show (d :: t2).drop (clsRun (d :: t2)) = [] ∨ _
        exact hdrop
      · have hde : d :: t2 = ['.'] := by simpa using hdot
        have hd : d = '.' := by injection hde
        have ht2 : t2 = [] := by injection hde
        subst hd
        subst ht2
        have hcr : clsRun [c, '.'] = 1 := by
          rw [clsRun_cons_pos c _ hc, clsRun_cons_neg '.' [] (by decide)]
        rw [hcr]
        exact ⟨by omega, Or.inr rfl⟩

theorem clsThenOptDotEnd_chars (l : List Char) (h : clsThenOptDotEnd l = true) :
    ∀ x ∈ l, isCls x = true ∨ x = '.' := by
  obtain ⟨hk, hdrop⟩ := clsThenOptDotEnd_spec l h
  intro x hx
  have hsplit : l.takeWhile isCls ++ l.dropWhile isCls = l :=
    List.takeWhile_append_dropWhile isCls l
  rw [← hsplit] at hx
  rcases List.mem_append.mp hx with hx | hx
  · exact Or.inl (List.mem_takeWhile_imp hx)
  · right
    have hdw : l.drop (clsRun l) = l.dropWhile isCls := by
      rw [clsRun_takeWhile]
      have h3 := List.drop_left (l.takeWhile isCls) (l.dropWhile isCls)
      rw [hsplit] at h3
      exact h3
    rw [← hdw] at hx
    rcases hdrop with hd | hd <;> rw [hd] at hx
    · simp at hx
    · simpa using hx

theorem clsDotMatch_full (l : List Char) (h : clsThenOptDotEnd l = true) :
    clsDotMatch l = some l.length := by
  obtain ⟨hk, hdrop⟩ := clsThenOptDotEnd_spec l h
  unfold clsDotMatch
  rw [if_neg (by omega)]
  rcases hdrop with hd | hd
  · rw [hd]
    have hll : l.length = clsRun l := by
      have h1 := List.length_drop (clsRun l) l
      rw [hd] at h1
      simp at h1
      have := clsRun_le l
      omega
    simp [hll]
  · rw [hd]
    have hll : l.length = clsRun l + 1 := by
      have h1 := List.length_drop (clsRun l) l
      rw [hd] at h1
      simp at h1
      have := clsRun_le l
      omega
    simp [hll]

theorem reSubGo_nil (repl : List Char) (fuel : Nat) (b : Bool) :
    reSubGo repl fuel b [] = if b then repl else [] := by
  cases fuel <;> rfl

theorem alt1Match_full (cs : List Char) (h : alt1FullB cs = true) :
    alt1Match cs = some cs.length := by
  cases cs with
  | nil => exact absurd h (by decide)
  | cons c rest =>
    have h2 := h
    unfold alt1FullB at h2
    rw [Bool.and_eq_true, Bool.or_eq_true] at h2
    obtain ⟨hn, hbody⟩ := h2
    have hn' : lc c = 'n' := of_decide_eq_true hn
    rcases hbody with hrec | hdot
    · -- no optional dot: the tail is a class run with an optional final dot
      revert hrec
      cases rest with
      | nil => intro hrec; exact absurd hrec (by decide)
      | cons r0 rr =>
        intro hrec
        have hr0 : isCls r0 = true := by
          revert hrec
          cases rr with
          | nil => intro hrec; exact hrec
          | cons d t =>
            intro hrec
            have h3 := hrec
            unfold clsThenOptDotEnd at h3
            rw [Bool.and_eq_true] at h3
            exact h3.1
        have hr0d : r0 ≠ '.' := by
          intro he
          rw [he] at hr0
          exact absurd hr0 (by decide)
        simp only [alt1Match]
        rw [if_pos hn']
        split
        · rename_i cs2 heq
          exact absurd (by injection heq : r0 = '.') hr0d
        · rw [clsDotMatch_full _ hrec]
          simp
    · -- the optional dot is present
      revert hdot
      cases rest with
      | nil => intro hdot; exact absurd hdot (by decide)
      | cons r0 rr =>
        intro hdot
        by_cases hr0 : r0 = '.'
        · subst hr0
          have hrr : clsThenOptDotEnd rr = true := hdot
          simp only [alt1Match]
          rw [if_pos hn']
          show (match clsDotMatch rr with
            | some k => some (k + 2)
            | none => (clsDotMatch ('.' :: rr)).map (· + 1)) = _
          rw [clsDotMatch_full rr hrr]
          simp
        · exfalso
          split at hdot
          · rename_i cs2 heq
            exact hr0 (by injection heq)
          · exact absurd hdot (by decide)

theorem reMatchAt_of_alt1 (atStart : Bool) (c : Char) (rest : List Char) (k : Nat)
    (h : alt1Match (c :: rest) = some k) :
    reMatchAt atStart (c :: rest) = some k := by
  simp only [reMatchAt]
  rw [h]

theorem reMatchAt_full (cs : List Char) (hne : cs ≠ [])
    (h : unknownFullMatch cs = true) :
    reMatchAt true cs = some cs.length := by
  cases cs with
  | nil => exact absurd rfl hne
  | cons c rest =>
    unfold unknownFullMatch at h
    simp only [Bool.or_eq_true] at h
    rcases h with ((((h0 | h1) | h2) | h3) | h4)
    · simp at h0
    · -- the single-dash alternative
      revert h1
      cases rest with
      | cons r rr => intro h1; simp at h1
      | nil =>
        intro h1
        have hdash : lc c = '-' := of_decide_eq_true h1
        have ha : alt1Match [c] = none := by
          simp only [alt1Match]
          rw [if_neg (by rw [hdash]; decide)]
        simp only [reMatchAt]
        rw [ha]
        simp [hdash]
    · exact reMatchAt_of_alt1 true c rest _ (alt1Match_full _ h2)
    · -- the unk.* alternative
      rw [Bool.and_eq_true] at h3
      obtain ⟨hunk, hnl⟩ := h3
      have hcu : lc c = 'u' := by
        have h5 := hunk
        unfold startsLCI at h5
        rw [Bool.and_eq_true] at h5
        have h6 := of_decide_eq_true h5.1
        rw [show lc 'u' = 'u' from rfl] at h6
        exact h6.symm
      have ha : alt1Match (c :: rest) = none := by
        simp only [alt1Match]
        rw [if_neg (by rw [hcu]; decide)]
      simp only [reMatchAt]
      rw [ha]
      rw [if_neg (by rw [hcu]; simp)]
      rw [if_pos hunk]
      have htw : ((c :: rest).drop 3).takeWhile (fun d => d ≠ '\n')
          = (c :: rest).drop 3 :=
        takeWhile_all _ _ (all_drop _ 3 _ (List.all_eq_true.mp hnl))
      rw [htw]
      have hlen := startsLCI_length ['u', 'n', 'k'] (c :: rest) hunk
      simp only [List.length_cons] at hlen
      have hdl : ((c :: rest).drop 3).length = (c :: rest).length - 3 :=
        List.length_drop 3 (c :: rest)
      rw [hdl]
      simp only [List.length_cons]
      congr 1
      omega
    · -- the none alternative
      revert h4
      cases rest with
      | nil => intro h4; simp at h4
      | cons b r2 =>
        cases r2 with
        | nil => intro h4; simp at h4
        | cons c3 r3 =>
          cases r3 with
          | nil => intro h4; simp at h4
          | cons d r4 =>
            cases r4 with
            | cons e r5 => intro h4; simp at h4
            | nil =>
              intro h4
              simp only [Bool.and_eq_true] at h4
              obtain ⟨⟨⟨hc, hb⟩, hc3⟩, hd⟩ := h4
              have hc' : lc c = 'n' := of_decide_eq_true hc
              have hb' : lc b = 'o' := of_decide_eq_true hb
              have hc3' : lc c3 = 'n' := of_decide_eq_true hc3
              have hd' : lc d = 'e' := of_decide_eq_true hd
              have ha : alt1Match [c, b, c3, d] = none := by
                simp only [alt1Match]
                rw [if_pos hc']
                have hbd : b ≠ '.' := by
                  intro he
                  rw [he] at hb'
                  exact absurd hb' (by decide)
                have hcls : isCls b = false := by
                  unfold isCls
                  rw [hb']
                  decide
                have hcd : clsDotMatch [b, c3, d] = none := by
                  unfold clsDotMatch
                  rw [clsRun_cons_neg b _ hcls]
                  rw [if_pos rfl]
                split
                · rename_i cs2 heq
                  exact absurd (by injection heq : b = '.') hbd
                · rw [hcd]
                  rfl
              simp only [reMatchAt]
              rw [ha]
              rw [if_neg (by rw [hc']; simp)]
              rw [if_neg (by
                show ¬ (startsLCI ['u', 'n', 'k'] [c, b, c3, d] = true)
                unfold startsLCI
                rw [Bool.and_eq_true]
                rintro ⟨hq, _⟩
                have hq2 := of_decide_eq_true hq
                rw [hc'] at hq2
                exact absurd hq2 (by decide))]
              rw [if_pos (by
                show startsLCI ['n', 'o', 'n', 'e'] [c, b, c3, d] = true
                simp only [startsLCI, Bool.and_eq_true, decide_eq_true_eq,
                  hc', hb', hc3', hd']
                decide)]
              rfl

theorem reSub_full (cs : List Char) (h : unknownFullMatch cs = true) :
    reSub [] cs = [] := by
  cases cs with
  | nil => rfl
  | cons c rest =>
    have hm := reMatchAt_full (c :: rest) (by simp) h
    show reSubGo [] (rest.length + 1) true (c :: rest) = []
    show (match reMatchAt true (c :: rest) with
      | some k => [] ++ reSubGo [] rest.length false (List.drop (k - 1) rest)
      | none => c :: reSubGo [] rest.length false rest) = []
    rw [hm]
    show [] ++ reSubGo [] rest.length false (List.drop ((c :: rest).length - 1) rest) = []
    simp only [List.nil_append, List.length_cons, Nat.add_sub_cancel, List.drop_length]
    rw [reSubGo_nil]
    rfl

theorem dropWhile_eq_self_of_all {α : Type} (p : α → Bool) (l : List α)
    (h : ∀ x ∈ l, p x = false) : l.dropWhile p = l := by
  cases l with
  | nil => rfl
  | cons c t =>
    rw [List.dropWhile_cons, if_neg (by simp [h c (by simp)])]

theorem pyStrip_id_of_all (cs : List Char) (h : ∀ x ∈ cs, wsp x = false) :
    pyStrip cs = cs := by
  unfold pyStrip
  rw [dropWhile_eq_self_of_all wsp cs h]
  rw [dropWhile_eq_self_of_all wsp cs.reverse (fun x hx => h x (List.mem_reverse.mp hx))]
  exact List.reverse_reverse cs

theorem wsp_false_of_lc (c x : Char) (hx : lc c = x) (h1 : wsp x = false) :
    wsp c = false := by
  by_contra hcon
  rw [Bool.not_eq_false] at hcon
  rcases wsp_char c hcon with rfl | rfl | rfl | rfl
  · rw [show lc ' ' = ' ' from rfl] at hx
    rw [← hx] at h1
    exact absurd h1 (by decide)
  · rw [show lc '\t' = '\t' from rfl] at hx
    rw [← hx] at h1
    exact absurd h1 (by decide)
  · rw [show lc '\r' = '\r' from rfl] at hx
    rw [← hx] at h1
    exact absurd h1 (by decide)
  · rw [show lc '\n' = '\n' from rfl] at hx
    rw [← hx] at h1
    exact absurd h1 (by decide)

theorem wsp_false_of_isCls (c : Char) (h : isCls c = true) : wsp c = false := by
  unfold isCls at h
  simp only [Bool.or_eq_true] at h
  rcases h with (((h | h) | h) | h) | h <;>
    exact wsp_false_of_lc c _ (of_decide_eq_true h) (by decide)

theorem dropWhile_cons_of_false (c : Char) (t : List Char) (h : wsp c = false) :
    (c :: t).dropWhile wsp = c :: t := by
  rw [List.dropWhile_cons, if_neg (by simp [h])]

theorem pyStrip_decomp (c : Char) (t : List Char) (hc : wsp c = false) :
    ∃ w, c :: t = pyStrip (c :: t) ++ w ∧ ∀ x ∈ w, wsp x = true := by
  refine ⟨((c :: t).reverse.takeWhile wsp).reverse, ?_, ?_⟩
  · show c :: t = (((c :: t).dropWhile wsp).reverse.dropWhile wsp).reverse
      ++ ((c :: t).reverse.takeWhile wsp).reverse
    rw [dropWhile_cons_of_false c t hc]
    rw [← List.reverse_append, List.takeWhile_append_dropWhile, List.reverse_reverse]
  · intro x hx
    rw [List.mem_reverse] at hx
    exact List.mem_takeWhile_imp hx

theorem unknownFullMatch_strip (cs : List Char) (h : unknownFullMatch cs = true) :
    unknownFullMatch (pyStrip cs) = true := by
  cases cs with
  | nil => exact h
  | cons c rest =>
    have horig := h
    unfold unknownFullMatch at h
    simp only [Bool.or_eq_true] at h
    rcases h with ((((h0 | h1) | h2) | h3) | h4)
    · simp at h0
    · -- single dash
      revert h1 horig
      cases rest with
      | cons r rr => intro horig h1; simp at h1
      | nil =>
        intro horig h1
        have hw : wsp c = false :=
          wsp_false_of_lc c '-' (of_decide_eq_true h1) (by decide)
        rw [pyStrip_id_of_all [c] (by
          intro x hx
          simp at hx
          subst hx
          exact hw)]
        exact horig
    · -- first alternative: whole string is the n[...] token, no whitespace
      unfold alt1FullB at h2
      rw [Bool.and_eq_true, Bool.or_eq_true] at h2
      obtain ⟨hn, hbody⟩ := h2
      have hcw : wsp c = false :=
        wsp_false_of_lc c 'n' (of_decide_eq_true hn) (by decide)
      have hrest : ∀ x ∈ rest, wsp x = false := by
        rcases hbody with hrec | hdot
        · intro x hx
          rcases clsThenOptDotEnd_chars rest hrec x hx with hc2 | rfl
          · exact wsp_false_of_isCls x hc2
          · decide
        · revert hdot
          cases rest with
          | nil => intro hdot; exact absurd hdot (by decide)
          | cons r0 rr =>
            intro hdot
            by_cases hr0 : r0 = '.'
            · subst hr0
              have hrr : clsThenOptDotEnd rr = true := hdot
              intro x hx
              rcases List.mem_cons.mp hx with rfl | hx2
              · decide
              · rcases clsThenOptDotEnd_chars rr hrr x hx2 with hc2 | rfl
                · exact wsp_false_of_isCls x hc2
                · decide
            · exfalso
              split at hdot
              · rename_i cs2 heq
                exact hr0 (by injection heq)
              · exact absurd hdot (by decide)
      rw [pyStrip_id_of_all (c :: rest) (by
        intro x hx
        rcases List.mem_cons.mp hx with rfl | hx2
        · exact hcw
        · exact hrest x hx2)]
      exact horig
    · -- the unk.* alternative: only the tail may be stripped
      rw [Bool.and_eq_true] at h3
      obtain ⟨hunk, hnl⟩ := h3
      revert hunk hnl
      cases rest with
      | nil =>
        intro hunk hnl
        have := startsLCI_length ['u', 'n', 'k'] [c] hunk
        simp at this
      | cons c2 rest2 =>
        cases rest2 with
        | nil =>
          intro hunk hnl
          have := startsLCI_length ['u', 'n', 'k'] [c, c2] hunk
          simp at this
        | cons c3 r =>
          intro hunk hnl
          have h5 := hunk
          simp only [startsLCI, Bool.and_eq_true, decide_eq_true_eq] at h5
          obtain ⟨hu, hn2, hk, -⟩ := h5
          have hcu : lc c = 'u' := by rw [← hu]; decide
          have hcn : lc c2 = 'n' := by rw [← hn2]; decide
          have hck : lc c3 = 'k' := by rw [← hk]; decide
          have hw1 : wsp c = false := wsp_false_of_lc c 'u' hcu (by decide)
          have hw3 : wsp c3 = false := wsp_false_of_lc c3 'k' hck (by decide)
          obtain ⟨w, heq, hwall⟩ := pyStrip_decomp c (c2 :: c3 :: r) hw1
          rcases hps : pyStrip (c :: c2 :: c3 :: r) with _ | ⟨x1, t1⟩
          · rw [hps] at heq
            simp only [List.nil_append] at heq
            exact absurd (hwall c3 (by rw [← heq]; simp)) (by rw [hw3]; simp)
          · rcases t1 with _ | ⟨x2, t2⟩
            · rw [hps] at heq
              have hc3w : c3 ∈ w := by
                have h6 : c2 :: c3 :: r = w := by
                  simp only [List.cons_append, List.nil_append] at heq
                  injection heq with i1 i2
                  all_goals exact i2
                rw [← h6]
                simp
              exact absurd (hwall c3 hc3w) (by rw [hw3]; simp)
            · rcases t2 with _ | ⟨x3, pr⟩
              · rw [hps] at heq
                have hc3w : c3 ∈ w := by
                  have h6 : c3 :: r = w := by
                    simp only [List.cons_append, List.nil_append] at heq
                    injection heq with i1 i2
                    all_goals injection i2 with i3 i4
                    all_goals exact i4
                  rw [← h6]
                  simp
                exact absurd (hwall c3 hc3w) (by rw [hw3]; simp)
              · rw [hps] at heq
                simp only [List.cons_append] at heq
                injection heq with j1 jr1
                injection jr1 with j2 jr2
                injection jr2 with j3 jr3
                subst j1
                subst j2
                subst j3
                unfold unknownFullMatch
                simp only [Bool.or_eq_true]
                refine Or.inl (Or.inr ?_)
                rw [Bool.and_eq_true]
                constructor
                · show (decide (lc 'u' = lc c) &&
                    (decide (lc 'n' = lc c2) &&
                      (decide (lc 'k' = lc c3) && startsLCI [] pr))) = true
                  simp only [Bool.and_eq_true, decide_eq_true_eq]
                  refine ⟨by rw [hcu]; decide, by rw [hcn]; decide,
                    by rw [hck]; decide, rfl⟩
                · rw [List.all_eq_true] at hnl ⊢
                  intro x hx
                  apply hnl
                  rw [jr3]
                  simp only [List.mem_cons, List.mem_append] at hx ⊢
                  tauto
    · -- literal none
      revert h4 horig
      cases rest with
      | nil => intro horig h4; simp at h4
      | cons b r2 =>
        cases r2 with
        | nil => intro horig h4; simp at h4
        | cons c3 r3 =>
          cases r3 with
          | nil => intro horig h4; simp at h4
          | cons d r4 =>
            cases r4 with
            | cons e r5 => intro horig h4; simp at h4
            | nil =>
              intro horig h4
              simp only [Bool.and_eq_true] at h4
              obtain ⟨⟨⟨hc, hb⟩, hc3⟩, hd⟩ := h4
              rw [pyStrip_id_of_all [c, b, c3, d] (by
                intro x hx
                simp only [List.mem_cons, List.not_mem_nil, or_false] at hx
                rcases hx with rfl | rfl | rfl | rfl
                · exact wsp_false_of_lc x 'n' (of_decide_eq_true hc) (by decide)
                · exact wsp_false_of_lc x 'o' (of_decide_eq_true hb) (by decide)
                · exact wsp_false_of_lc x 'n' (of_decide_eq_true hc3) (by decide)
                · exact wsp_false_of_lc x 'e' (of_decide_eq_true hd) (by decide))]
              exact horig

/-- **C8.**  For every text-typed column the type-casting operation takes the
string branch, and that branch normalizes every unknown token to the empty
string: any cell whose stringified value fully matches the unknown-token
regex is replaced by `""` (the substitution is case-insensitive), and in
particular each of the literal tokens `nan`, `na`, `nd`, `n.d`, `none`, `-`,
`unknown`, `n/a`, `n/d` and the empty string, in any letter case, casts to
the empty string. -/
theorem C8_unknown_tokens (types : Registry) (table colName : String)
    (lookup : String → Option String)
    (hreg : types table = some lookup)
    (htyp : lookup (lowerStr colName) = some "string") :
    (∀ vals : List RawCell,
      parse_types types table colName vals =
        Except.ok (.strs (vals.map
          (fun v => text_cast_cell (lowerStr colName) (pyStr v))))) ∧
    (∀ s : String, unknownFullMatch s.data = true →
      text_cast_cell (lowerStr colName) s = "") ∧
    (∀ tok ∈ (["nan", "NaN", "NAN", "na", "NA", "nd", "ND", "n.d", "N.D",
        "none", "None", "NONE", "-", "unknown", "Unknown", "UNKNOWN",
        "n/a", "N/A", "n/d", "N/D", ""] : List String),
      text_cast_cell (lowerStr colName) tok = "") := by
  have hgen : ∀ (name s : String), unknownFullMatch s.data = true →
      text_cast_cell name s = "" := by
    intro name s hs
    have hsub := reSub_full (pyStrip s.data) (unknownFullMatch_strip s.data hs)
    show (if name ≠ "wkt" then String.mk (lcl (reSub [] (pyStrip s.data)))
      else String.mk (reSub [] (pyStrip s.data))) = ""
    rw [hsub]
    split <;> rfl
  refine ⟨?_, fun s hs => hgen _ s hs, ?_⟩
  · intro vals
    simp only [parse_types, hreg, htyp, Option.getD_some]
    rw [if_neg (by decide), if_pos (by decide)]
  · intro tok htok
    fin_cases htok <;> exact hgen _ _ (by decide)

/-- Witness for C8: the concrete registry maps `note` to `string`; unknown
tokens in several spellings cast to the empty string and a regular value is
stripped and lower-cased. -/
theorem C8_witness :
    text_cast_cell (lowerStr "Note") "UNKNOWN result" = ""
    ∧ text_cast_cell (lowerStr "Note") "N/A" = ""
    ∧ parse_types regT "WWMeasure" "Note" [.rstr "n.d", .rstr " Detected "]
        = Except.ok (.strs ["", "detected"]) := by
  have h := C8_unknown_tokens regT "WWMeasure" "Note" regLookupT rfl rfl
  refine ⟨h.2.1 "UNKNOWN result" (by decide), h.2.2 "N/A" (by decide), ?_⟩
  rw [h.1 [.rstr "n.d", .rstr " Detected "]]
  decide

theorem mapM_eq_map_of_some {α β : Type} (g : α → Option β) (f : α → β)
    (l : List α) (h : ∀ a ∈ l, g a = some (f a)) :
    l.mapM g = some (l.map f) := by
  induction l with
  | nil => rfl
  | cons a l ih =>
    rw [List.mapM_cons, h a (by simp), ih (fun x hx => h x (by simp [hx]))]
    rfl

theorem mapM_eq_none_of_mem {α β : Type} (g : α → Option β) (l : List α)
    (a : α) (ha : a ∈ l) (h : g a = none) : l.mapM g = none := by
  induction l with
  | nil => cases ha
  | cons b l ih =>
    rw [List.mapM_cons]
    rcases List.mem_cons.mp ha with rfl | hm
    · rw [h]; rfl
    · rcases hg : g b with _ | bv
      · rfl
      · rw [ih hm]; rfl

theorem map_id_of_eq {α : Type} (l : List α) (f : α → α)
    (h : ∀ a ∈ l, f a = a) : l.map f = l := by
  induction l with
  | nil => rfl
  | cons a l ih =>
    rw [List.map_cons, h a (by simp), ih (fun x hx => h x (by simp [hx]))]

theorem exists_of_all_eq_false {α : Type} (p : α → Bool) (l : List α)
    (h : l.all p = false) : ∃ x ∈ l, p x = false := by
  induction l with
  | nil => simp at h
  | cons a l ih =>
    rw [List.all_cons] at h
    rcases hp : p a with _ | _
    · exact ⟨a, by simp, hp⟩
    · rw [hp, Bool.true_and] at h
      obtain ⟨x, hx, hpx⟩ := ih h
      exact ⟨x, by simp [hx], hpx⟩

theorem range_map_getD {α β : Type} (l : List α) (d : α) (f : α → β) :
    (List.range l.length).map (fun i => f (l.getD i d)) = l.map f := by
  apply List.ext_getElem
  · simp
  · intro j h1 h2
    rw [List.getElem_map, List.getElem_range, List.getElem_map]
    have hj : j < l.length := by simpa using h2
    rw [List.getD_eq_getElem l d hj]

theorem dig_toNat (n : Nat) : (dig n).toNat = 48 + n % 10 := by
  unfold dig
  have h10 : n % 10 < 10 := Nat.mod_lt _ (by omega)
  generalize hg : n % 10 = k at h10 ⊢
  interval_cases k <;> decide

theorem isDig_dig (n : Nat) : isDig (dig n) = true := by
  unfold isDig
  rw [dig_toNat]
  have h10 : n % 10 < 10 := Nat.mod_lt _ (by omega)
  rw [Bool.and_eq_true, decide_eq_true_eq, decide_eq_true_eq]
  omega

theorem dv_dig (n : Nat) : dv (dig n) = n % 10 := by
  unfold dv
  rw [dig_toNat]
  omega

theorem parseIso_explicit (y1 y2 y3 y4 m1 m2 d1 d2 h1 h2 mi1 mi2 s1 s2 x1 x2 x3 : Char) :
    parseIso (String.mk [y1, y2, y3, y4, '-', m1, m2, '-', d1, d2, 'T',
        h1, h2, ':', mi1, mi2, ':', s1, s2, '.', x1, x2, x3, 'Z']) =
      (if isDig y1 && isDig y2 && isDig y3 && isDig y4 && isDig m1 && isDig m2 &&
          isDig d1 && isDig d2 && isDig h1 && isDig h2 && isDig mi1 && isDig mi2 &&
          isDig s1 && isDig s2 && isDig x1 && isDig x2 && isDig x3 then
        some ⟨((dv y1 * 10 + dv y2) * 10 + dv y3) * 10 + dv y4,
              dv m1 * 10 + dv m2, dv d1 * 10 + dv d2, dv h1 * 10 + dv h2,
              dv mi1 * 10 + dv mi2, dv s1 * 10 + dv s2,
              (dv x1 * 10 + dv x2) * 10 + dv x3⟩
      else none) := rfl

theorem parseIso_isoFormat (t : Ts) (h : TsBounded t) :
    parseIso (isoFormat t) = some t := by
  obtain ⟨hy, hm, hd, hh, hmi, hs, hms⟩ := h
  obtain ⟨y, mo, da, ho, mi, se, ms⟩ := t
  simp only [TsBounded] at hy hm hd hh hmi hs hms
  show parseIso (String.mk [dig (y / 1000), dig (y / 100), dig (y / 10), dig y, '-',
      dig (mo / 10), dig mo, '-', dig (da / 10), dig da, 'T',
      dig (ho / 10), dig ho, ':', dig (mi / 10), dig mi, ':',
      dig (se / 10), dig se, '.', dig (ms / 100), dig (ms / 10), dig ms, 'Z'])
    = some ⟨y, mo, da, ho, mi, se, ms⟩
  rw [parseIso_explicit]
  rw [if_pos (by simp only [isDig_dig, Bool.and_self])]
  simp only [dv_dig, Option.some.injEq, Ts.mk.injEq]
  refine ⟨by omega, by omega, by omega, by omega, by omega, by omega, by omega⟩

theorem jsonToRawCell_cellToJson (v : Cell) :
    jsonToRawCell (cellToJson v) = some (cellWire v) := by
  cases v <;> rfl

theorem mapM_jstr_names (l : List Col) :
    (l.map (fun c => JVal.jstr c.name)).mapM
        (fun c => match c with | JVal.jstr s => some s | _ => none)
      = some (l.map Col.name) := by
  induction l with
  | nil => rfl
  | cons c l ih =>
    rw [List.map_cons, List.mapM_cons]
    show ((some c.name : Option String) >>= fun b =>
      ((l.map (fun c => JVal.jstr c.name)).mapM
        (fun c => match c with | JVal.jstr s => some s | _ => none)) >>= fun bs =>
          pure (b :: bs)) = _
    rw [ih]
    rfl

theorem mapM_wire_row (l : List Col) (i : Nat) :
    (l.map (fun c => cellToJson (c.vals.getD i Cell.cnull))).mapM jsonToRawCell
      = some (l.map (fun c => cellWire (c.vals.getD i Cell.cnull))) := by
  induction l with
  | nil => rfl
  | cons c l ih =>
    rw [List.map_cons, List.mapM_cons, jsonToRawCell_cellToJson, ih]
    rfl

theorem mapM_rows_aux (cols : List Col) (idx : List Nat) :
    (idx.map (fun i => JVal.jarr (cols.map (fun c =>
        cellToJson (c.vals.getD i Cell.cnull))))).mapM
      (fun r => match r with
        | JVal.jarr cells => cells.mapM jsonToRawCell
        | _ => none)
    = some (idx.map (fun i => cols.map (fun c =>
        cellWire (c.vals.getD i Cell.cnull)))) := by
  induction idx with
  | nil => rfl
  | cons i idx ih =>
    rw [List.map_cons, List.mapM_cons]
    show ((cols.map (fun c => cellToJson (c.vals.getD i Cell.cnull))).mapM
        jsonToRawCell >>= fun b =>
      ((idx.map (fun i => JVal.jarr (cols.map (fun c =>
          cellToJson (c.vals.getD i Cell.cnull))))).mapM
        (fun r => match r with
          | JVal.jarr cells => cells.mapM jsonToRawCell
          | _ => none)) >>= fun bs => pure (b :: bs)) = _
    rw [mapM_wire_row cols i, ih]
    rfl

theorem inferData_nums (nm : String) (vals : List Cell)
    (hne : vals.isEmpty = false)
    (hnum : vals.all (fun v => match v with
      | Cell.cnum _ => true | _ => false) = true) :
    inferData nm vals =
      (if vals.all (fun v => match v with
          | Cell.cnum q => q.den = 1 | _ => true) then
        (⟨nm, Dtype.int64, vals⟩ : Col)
      else ⟨nm, Dtype.float64, vals⟩) := by
  unfold inferData
  rw [if_neg (by
    rw [Bool.and_eq_true]
    rintro ⟨h1, h2⟩
    cases vals with
    | nil => exact Bool.noConfusion hne
    | cons v0 vt =>
      have hx := List.all_eq_true.mp h2 v0 (by simp)
      have hy := List.all_eq_true.mp hnum v0 (by simp)
      cases v0 <;> first | exact Bool.noConfusion hx | exact Bool.noConfusion hy)]
  rw [if_pos (by rw [Bool.and_eq_true]; exact ⟨by rw [hne]; rfl, hnum⟩)]

theorem inferData_bools (nm : String) (vals : List Cell)
    (hne : vals.isEmpty = false)
    (hb : vals.all (fun v => match v with
      | Cell.cbool _ => true | _ => false) = true) :
    inferData nm vals = ⟨nm, Dtype.boolDt, vals⟩ := by
  unfold inferData
  rw [if_neg (by
    rw [Bool.and_eq_true]
    rintro ⟨h1, h2⟩
    cases vals with
    | nil => exact Bool.noConfusion hne
    | cons v0 vt =>
      have hx := List.all_eq_true.mp h2 v0 (by simp)
      have hy := List.all_eq_true.mp hb v0 (by simp)
      cases v0 <;> first | exact Bool.noConfusion hx | exact Bool.noConfusion hy)]
  rw [if_neg (by
    rw [Bool.and_eq_true]
    rintro ⟨h1, h2⟩
    cases vals with
    | nil => exact Bool.noConfusion hne
    | cons v0 vt =>
      have hx := List.all_eq_true.mp h2 v0 (by simp)
      have hy := List.all_eq_true.mp hb v0 (by simp)
      cases v0 <;> first | exact Bool.noConfusion hx | exact Bool.noConfusion hy)]
  rw [if_pos (by rw [Bool.and_eq_true]; exact ⟨by rw [hne]; rfl, hb⟩)]

theorem mapM_parse_wire (vals : List Cell)
    (h : vals.all (fun v => match v with
      | Cell.cts t => decide (TsBounded t) | _ => false) = true) :
    (vals.map cellWire).mapM (fun v => match v with
        | Cell.cstr s => parseIso s | _ => none)
      = some (vals.map (fun v => match v with
          | Cell.cts t => t | _ => (⟨0, 0, 0, 0, 0, 0, 0⟩ : Ts))) := by
  induction vals with
  | nil => rfl
  | cons v vt ih =>
    rw [List.all_cons, Bool.and_eq_true] at h
    obtain ⟨hv, hrest⟩ := h
    rw [List.map_cons, List.map_cons, List.mapM_cons]
    cases v with
    | cts t =>
      have hb : TsBounded t := of_decide_eq_true hv
      show ((parseIso (isoFormat t) : Option Ts) >>= fun b =>
        ((vt.map cellWire).mapM (fun v => match v with
          | Cell.cstr s => parseIso s | _ => none)) >>= fun bs =>
            pure (b :: bs)) = _
      rw [parseIso_isoFormat t hb, ih hrest]
      rfl
    | cstr s => exact Bool.noConfusion hv
    | cnum q => exact Bool.noConfusion hv
    | cbool b => exact Bool.noConfusion hv
    | cnull => exact Bool.noConfusion hv

theorem inferCol_restore (c : Col) (h : colRoundTripsB c = true) :
    inferCol c.name (c.vals.map cellWire) = c := by
  obtain ⟨nm, dt, vals⟩ := c
  unfold colRoundTripsB at h
  rw [Bool.and_eq_true] at h
  obtain ⟨hne, hdt⟩ := h
  rw [Bool.not_eq_true'] at hne
  cases dt with
  | object =>
    have hdt2 : (!isOkDateName nm &&
        vals.all (fun v => match v with | Cell.cstr _ => true | _ => false) &&
        !(vals.all (fun v => match v with
          | Cell.cstr s => (pyFloat? s).isSome | _ => false))) = true := hdt
    rw [Bool.and_eq_true, Bool.and_eq_true] at hdt2
    obtain ⟨⟨hdn, hstr⟩, hnf⟩ := hdt2
    rw [Bool.not_eq_true'] at hdn hnf
    rw [map_id_of_eq vals cellWire (by
      intro v hv
      have hp := List.all_eq_true.mp hstr v hv
      cases v with
      | cstr s => rfl
      | cnum q => exact Bool.noConfusion hp
      | cbool b => exact Bool.noConfusion hp
      | cts t => exact Bool.noConfusion hp
      | cnull => exact Bool.noConfusion hp)]
    unfold inferCol
    rw [hdn, if_neg (by simp)]
    unfold inferData
    rw [if_pos (by rw [Bool.and_eq_true]; exact ⟨by rw [hne]; rfl, hstr⟩)]
    have hnone : vals.mapM (fun v => match v with
        | Cell.cstr s => pyFloat? s | _ => none) = none := by
      obtain ⟨v, hv, hpv⟩ := exists_of_all_eq_false _ _ hnf
      have hps := List.all_eq_true.mp hstr v hv
      cases v with
      | cstr s =>
        refine mapM_eq_none_of_mem _ _ _ hv ?_
        show pyFloat? s = none
        have hpv2 : (pyFloat? s).isSome = false := hpv
        rcases hq : pyFloat? s with _ | q
        · rfl
        · rw [hq] at hpv2
          exact Bool.noConfusion hpv2
      | cnum q => exact Bool.noConfusion hps
      | cbool b => exact Bool.noConfusion hps
      | cts t => exact Bool.noConfusion hps
      | cnull => exact Bool.noConfusion hps
    rw [hnone]
  | float64 =>
    have hdt2 : (!isOkDateName nm &&
        vals.all (fun v => match v with | Cell.cnum _ => true | _ => false) &&
        !(vals.all (fun v => match v with
          | Cell.cnum q => q.den = 1 | _ => false))) = true := hdt
    rw [Bool.and_eq_true, Bool.and_eq_true] at hdt2
    obtain ⟨⟨hdn, hnum⟩, hni⟩ := hdt2
    rw [Bool.not_eq_true'] at hdn hni
    rw [map_id_of_eq vals cellWire (by
      intro v hv
      have hp := List.all_eq_true.mp hnum v hv
      cases v with
      | cnum q => rfl
      | cstr s => exact Bool.noConfusion hp
      | cbool b => exact Bool.noConfusion hp
      | cts t => exact Bool.noConfusion hp
      | cnull => exact Bool.noConfusion hp)]
    unfold inferCol
    rw [hdn, if_neg (by simp)]
    rw [inferData_nums nm vals hne hnum]
    rw [if_neg (by
      intro hcon
      obtain ⟨v, hv, hpv⟩ := exists_of_all_eq_false _ _ hni
      have hnv := List.all_eq_true.mp hnum v hv
      have hiv := List.all_eq_true.mp hcon v hv
      cases v with
      | cnum q =>
        have hpv2 : decide (q.den = 1) = false := hpv
        have hiv2 : decide (q.den = 1) = true := hiv
        rw [hpv2] at hiv2
        exact Bool.noConfusion hiv2
      | cstr s => exact Bool.noConfusion hnv
      | cbool b => exact Bool.noConfusion hnv
      | cts t => exact Bool.noConfusion hnv
      | cnull => exact Bool.noConfusion hnv)]
  | int64 =>
    have hdt2 : (!isOkDateName nm &&
        vals.all (fun v => match v with
          | Cell.cnum q => q.den = 1 | _ => false)) = true := hdt
    rw [Bool.and_eq_true] at hdt2
    obtain ⟨hdn, hall⟩ := hdt2
    rw [Bool.not_eq_true'] at hdn
    have hnum : vals.all (fun v => match v with
        | Cell.cnum _ => true | _ => false) = true := by
      rw [List.all_eq_true]
      intro v hv
      have hp := List.all_eq_true.mp hall v hv
      cases v with
      | cnum q => rfl
      | cstr s => exact Bool.noConfusion hp
      | cbool b => exact Bool.noConfusion hp
      | cts t => exact Bool.noConfusion hp
      | cnull => exact Bool.noConfusion hp
    rw [map_id_of_eq vals cellWire (by
      intro v hv
      have hp := List.all_eq_true.mp hall v hv
      cases v with
      | cnum q => rfl
      | cstr s => exact Bool.noConfusion hp
      | cbool b => exact Bool.noConfusion hp
      | cts t => exact Bool.noConfusion hp
      | cnull => exact Bool.noConfusion hp)]
    unfold inferCol
    rw [hdn, if_neg (by simp)]
    rw [inferData_nums nm vals hne hnum]
    rw [if_pos (by
      rw [List.all_eq_true]
      intro v hv
      have hp := List.all_eq_true.mp hall v hv
      cases v with
      | cnum q => exact hp
      | cstr s => exact Bool.noConfusion hp
      | cbool b => exact Bool.noConfusion hp
      | cts t => exact Bool.noConfusion hp
      | cnull => exact Bool.noConfusion hp)]
  | boolDt =>
    have hb : vals.all (fun v => match v with
        | Cell.cbool _ => true | _ => false) = true := hdt
    rw [map_id_of_eq vals cellWire (by
      intro v hv
      have hp := List.all_eq_true.mp hb v hv
      cases v with
      | cbool b => rfl
      | cstr s => exact Bool.noConfusion hp
      | cnum q => exact Bool.noConfusion hp
      | cts t => exact Bool.noConfusion hp
      | cnull => exact Bool.noConfusion hp)]
    unfold inferCol
    rcases hdn : isOkDateName nm with _ | _
    · rw [if_neg (by simp)]
      exact inferData_bools nm vals hne hb
    · rw [if_pos rfl]
      have hnone : tryConvertDates vals = none := by
        unfold tryConvertDates
        rw [if_neg (by rw [hne]; simp)]
        cases vals with
        | nil => exact Bool.noConfusion hne
        | cons v0 vt =>
          have hy := List.all_eq_true.mp hb v0 (by simp)
          refine mapM_eq_none_of_mem _ _ v0 (by simp) ?_
          cases v0 with
          | cstr s => exact Bool.noConfusion hy
          | cnum q => rfl
          | cbool b => rfl
          | cts t => rfl
          | cnull => rfl
      rw [hnone]
      exact inferData_bools nm vals hne hb
  | datetime64 =>
    have hdt2 : (isOkDateName nm &&
        vals.all (fun v => match v with
          | Cell.cts t => decide (TsBounded t) | _ => false)) = true := hdt
    rw [Bool.and_eq_true] at hdt2
    obtain ⟨hdn, hts⟩ := hdt2
    unfold inferCol
    rw [if_pos hdn]
    have hconv : tryConvertDates (vals.map cellWire)
        = some (vals.map (fun v => match v with
            | Cell.cts t => t | _ => (⟨0, 0, 0, 0, 0, 0, 0⟩ : Ts))) := by
      unfold tryConvertDates
      rw [if_neg (by
        intro hcon
        rw [List.isEmpty_iff] at hcon
        rw [List.map_eq_nil_iff] at hcon
        rw [hcon] at hne
        exact Bool.noConfusion hne)]
      exact mapM_parse_wire vals hts
    rw [hconv]
    have hback : (vals.map (fun v => match v with
        | Cell.cts t => t | _ => (⟨0, 0, 0, 0, 0, 0, 0⟩ : Ts))).map Cell.cts
        = vals := by
      rw [List.map_map]
      exact map_id_of_eq _ _ (by
        intro v hv
        have hv2 := List.all_eq_true.mp hts v hv
        cases v with
        | cts t => rfl
        | cstr s => exact Bool.noConfusion hv2
        | cnum q => exact Bool.noConfusion hv2
        | cbool b => exact Bool.noConfusion hv2
        | cnull => exact Bool.noConfusion hv2)
    show (⟨nm, Dtype.datetime64, (vals.map (fun v => match v with
        | Cell.cts t => t | _ => (⟨0, 0, 0, 0, 0, 0, 0⟩ : Ts))).map Cell.cts⟩ : Col)
      = ⟨nm, Dtype.datetime64, vals⟩
    rw [hback]

theorem dfFromJson_dfToJson (df : DataFrame) (h : dfRoundTripReady df) :
    dfFromJson (dfToJson df) = some df := by
  obtain ⟨hrect, hcols⟩ := h
  obtain ⟨cols⟩ := df
  show (do
      let names ← (cols.map (fun c => JVal.jstr c.name)).mapM
        (fun c => match c with | JVal.jstr s => some s | _ => none)
      let rows ← ((List.range (DataFrame.nrows ⟨cols⟩)).map (fun i =>
          JVal.jarr (cols.map (fun c => cellToJson (c.vals.getD i Cell.cnull))))).mapM
        (fun r => match r with
          | JVal.jarr cells => cells.mapM jsonToRawCell
          | _ => none)
      if rows.all (fun r => r.length = names.length) then
        some (⟨(List.range names.length).map (fun j =>
          inferCol (names.getD j "") (rows.map (fun r => r.getD j Cell.cnull)))⟩
            : DataFrame)
      else none) = some ⟨cols⟩
  rw [mapM_jstr_names cols]
  rw [mapM_rows_aux cols (List.range (DataFrame.nrows ⟨cols⟩))]
  show (if ((List.range (DataFrame.nrows ⟨cols⟩)).map (fun i => cols.map (fun c =>
      cellWire (c.vals.getD i Cell.cnull)))).all
        (fun r => r.length = (cols.map Col.name).length) then
      some (⟨(List.range (cols.map Col.name).length).map (fun j =>
        inferCol ((cols.map Col.name).getD j "")
          (((List.range (DataFrame.nrows ⟨cols⟩)).map (fun i => cols.map (fun c =>
            cellWire (c.vals.getD i Cell.cnull)))).map
              (fun r => r.getD j Cell.cnull)))⟩ : DataFrame)
    else none) = some ⟨cols⟩
  rw [if_pos (by
    rw [List.all_eq_true]
    intro r hr
    obtain ⟨i, hi, rfl⟩ := List.mem_map.mp hr
    simp [List.length_map])]
  refine congrArg some (congrArg DataFrame.mk ?_)
  rw [List.length_map]
  apply List.ext_getElem
  · simp
  · intro j h1 h2
    rw [List.getElem_map, List.getElem_range]
    have hj : j < cols.length := h2
    have hnm : (cols.map Col.name).getD j "" = (cols.get ⟨j, hj⟩).name := by
      rw [List.getD_eq_getElem _ _ (by simpa using hj), List.getElem_map]
      rfl
    have hrowj : ((List.range (DataFrame.nrows ⟨cols⟩)).map (fun i =>
          cols.map (fun c => cellWire (c.vals.getD i Cell.cnull)))).map
            (fun r => r.getD j Cell.cnull)
        = (List.range (DataFrame.nrows ⟨cols⟩)).map (fun i =>
            cellWire ((cols.get ⟨j, hj⟩).vals.getD i Cell.cnull)) := by
      rw [List.map_map]
      refine List.map_congr_left ?_
      intro i hi
      show (cols.map (fun c => cellWire (c.vals.getD i Cell.cnull))).getD j Cell.cnull
        = _
      rw [List.getD_eq_getElem _ _ (by simpa using hj), List.getElem_map]
      rfl
    rw [hnm, hrowj]
    have hcl : cols.get ⟨j, hj⟩ ∈ cols := List.get_mem cols j hj
    have hlen : (cols.get ⟨j, hj⟩).vals.length = DataFrame.nrows ⟨cols⟩ :=
      hrect _ hcl
    rw [← hlen]
    rw [range_map_getD]
    have := inferCol_restore (cols.get ⟨j, hj⟩) (hcols _ hcl)
    rw [this]
    rfl

theorem option_bind_ok {α β : Type} (a : α) (f : α → Option β) :
    ((some a : Option α) >>= f) = f a := rfl

theorem attr_ready_of_all (a : Option DataFrame)
    (h : a.all (fun df => decide (dfRoundTripReady df)) = true) :
    ∀ df, a = some df → dfRoundTripReady df := by
  intro df hdf
  rw [hdf] at h
  have h2 : decide (dfRoundTripReady df) = true := h
  exact of_decide_eq_true h2

theorem decode_encAttr (a : Option DataFrame)
    (h : ∀ df, a = some df → dfRoundTripReady df) :
    ∃ pv, decodeJVal (encAttr a) = some pv ∧ fromAttrVal pv = some a := by
  cases a with
  | none => exact ⟨.vnull, rfl, rfl⟩
  | some df =>
    refine ⟨.vdf df, ?_, rfl⟩
    show (dfFromJson (dfToJson df)).map PyVal.vdf = some (PyVal.vdf df)
    rw [dfFromJson_dfToJson df (h df rfl)]
    rfl

/-- **C4.** Amended round trip: encoding a container and decoding the result
restores it exactly *provided* every held table is round-trip ready: each
timestamp column bears a date-like name (the decoder only attempts date
parsing on such names), no other column has a date-like name, string columns
are not uniformly float-parsable and float columns are not uniformly
integral (the decoder narrows those), and no column is empty.  The original
claim, quantified over arbitrary tables with a text, a numeric and a
timestamp column, is refuted by `C4_counterexample`. -/
theorem C4_codec_round_trip (o : OdmModel) (h : odmReadyB o = true) :
    decodeJVal (encodeOdm o) = some (.vodm o) := by
  unfold odmReadyB at h
  rw [List.all_eq_true] at h
  obtain ⟨p1, hd1, hf1⟩ := decode_encAttr o.sample
    (attr_ready_of_all _ (h _ (by simp)))
  obtain ⟨p2, hd2, hf2⟩ := decode_encAttr o.ww_measure
    (attr_ready_of_all _ (h _ (by simp)))
  obtain ⟨p3, hd3, hf3⟩ := decode_encAttr o.site
    (attr_ready_of_all _ (h _ (by simp)))
  obtain ⟨p4, hd4, hf4⟩ := decode_encAttr o.site_measure
    (attr_ready_of_all _ (h _ (by simp)))
  obtain ⟨p5, hd5, hf5⟩ := decode_encAttr o.reporter
    (attr_ready_of_all _ (h _ (by simp)))
  obtain ⟨p6, hd6, hf6⟩ := decode_encAttr o.lab
    (attr_ready_of_all _ (h _ (by simp)))
  obtain ⟨p7, hd7, hf7⟩ := decode_encAttr o.assay_method
    (attr_ready_of_all _ (h _ (by simp)))
  obtain ⟨p8, hd8, hf8⟩ := decode_encAttr o.instrument
    (attr_ready_of_all _ (h _ (by simp)))
  obtain ⟨p9, hd9, hf9⟩ := decode_encAttr o.polygon
    (attr_ready_of_all _ (h _ (by simp)))
  obtain ⟨p10, hd10, hf10⟩ := decode_encAttr o.cphd
    (attr_ready_of_all _ (h _ (by simp)))
  have hfields : decodeJKVs
      [("sample", encAttr o.sample), ("ww_measure", encAttr o.ww_measure),
       ("site", encAttr o.site), ("site_measure", encAttr o.site_measure),
       ("reporter", encAttr o.reporter), ("lab", encAttr o.lab),
       ("assay_method", encAttr o.assay_method),
       ("instrument", encAttr o.instrument),
       ("polygon", encAttr o.polygon), ("cphd", encAttr o.cphd)]
      = some [("sample", p1), ("ww_measure", p2), ("site", p3),
        ("site_measure", p4), ("reporter", p5), ("lab", p6),
        ("assay_method", p7), ("instrument", p8), ("polygon", p9),
        ("cphd", p10)] := by
    simp only [decodeJKVs, hd1, hd2, hd3, hd4, hd5, hd6, hd7, hd8, hd9, hd10,
      option_bind_ok]
    rfl
  have hinner : decodeJVal (JVal.jobj
      [("sample", encAttr o.sample), ("ww_measure", encAttr o.ww_measure),
       ("site", encAttr o.site), ("site_measure", encAttr o.site_measure),
       ("reporter", encAttr o.reporter), ("lab", encAttr o.lab),
       ("assay_method", encAttr o.assay_method),
       ("instrument", encAttr o.instrument),
       ("polygon", encAttr o.polygon), ("cphd", encAttr o.cphd)])
      = some (PyVal.vdict [("sample", p1), ("ww_measure", p2), ("site", p3),
        ("site_measure", p4), ("reporter", p5), ("lab", p6),
        ("assay_method", p7), ("instrument", p8), ("polygon", p9),
        ("cphd", p10)]) := by
    show ((decodeJKVs
      [("sample", encAttr o.sample), ("ww_measure", encAttr o.ww_measure),
       ("site", encAttr o.site), ("site_measure", encAttr o.site_measure),
       ("reporter", encAttr o.reporter), ("lab", encAttr o.lab),
       ("assay_method", encAttr o.assay_method),
       ("instrument", encAttr o.instrument),
       ("polygon", encAttr o.polygon), ("cphd", encAttr o.cphd)]).bind
        applyHook) = _
    rw [hfields]
    rfl
  show ((decodeJKVs [("__Odm__", JVal.jobj
      [("sample", encAttr o.sample), ("ww_measure", encAttr o.ww_measure),
       ("site", encAttr o.site), ("site_measure", encAttr o.site_measure),
       ("reporter", encAttr o.reporter), ("lab", encAttr o.lab),
       ("assay_method", encAttr o.assay_method),
       ("instrument", encAttr o.instrument),
       ("polygon", encAttr o.polygon), ("cphd", encAttr o.cphd)])]).bind
        applyHook) = some (PyVal.vodm o)
  simp only [decodeJKVs, hinner, option_bind_ok]
  show (buildOdm [("sample", p1), ("ww_measure", p2), ("site", p3),
      ("site_measure", p4), ("reporter", p5), ("lab", p6),
      ("assay_method", p7), ("instrument", p8), ("polygon", p9),
      ("cphd", p10)]).map PyVal.vodm = some (PyVal.vodm o)
  show (((fromAttrVal p1) >>= fun sample =>
    (fromAttrVal p2) >>= fun ww_measure =>
    (fromAttrVal p3) >>= fun site =>
    (fromAttrVal p4) >>= fun site_measure =>
    (fromAttrVal p5) >>= fun reporter =>
    (fromAttrVal p6) >>= fun lab =>
    (fromAttrVal p7) >>= fun assay_method =>
    (fromAttrVal p8) >>= fun instrument =>
    (fromAttrVal p9) >>= fun polygon =>
    (fromAttrVal p10) >>= fun cphd =>
    pure (⟨sample, ww_measure, site, site_measure, reporter, lab,
      assay_method, instrument, polygon, cphd⟩ : OdmModel)).map PyVal.vodm)
    = some (PyVal.vodm o)
  simp only [hf1, hf2, hf3, hf4, hf5, hf6, hf7, hf8, hf9, hf10, option_bind_ok]
  rfl

/-- Counterexample to C4 as stated: `badOdm` holds a table with a text
column, a numeric column and a timestamp column named `t`; after encoding
and decoding, the timestamp column comes back as `object` (its ISO strings),
because `read_json` only attempts date parsing on date-like column names. -/
theorem C4_counterexample :
    siteColTypes (decodeJVal (encodeOdm badOdm))
      = some [("station", Dtype.object), ("conc", Dtype.float64),
        ("t", Dtype.object)]
    ∧ badOdm.site = some badDf
    ∧ badDf.cols.map (fun c => (c.name, c.dtype))
      = [("station", Dtype.object), ("conc", Dtype.float64),
        ("t", Dtype.datetime64)]
    ∧ Dtype.object ≠ Dtype.datetime64 :=
  ⟨by decide, by decide, by decide, by decide⟩

/-- Witness for C4: `rtOdm` holds a table with a text column, a numeric
column and a timestamp column named `dateTime`; it is round-trip ready and
decodes back to itself exactly. -/
theorem C4_witness :
    odmReadyB rtOdm = true
    ∧ decodeJVal (encodeOdm rtOdm) = some (.vodm rtOdm) :=
  ⟨by decide, C4_codec_round_trip rtOdm (by decide)⟩

end ResImport
